import Mathlib

/-! # reddit-kv: the key/value client over the in-memory Reddit mock

Shallow embedding of `pkg/redditkv` (`types.go`, `mock.go`, `client.go`).

Modelling conventions.

* Go strings are Lean `String`s; `len`, `s[:3]` and `s[3:]` are `String.length`,
  `String.take 3` and `String.drop 3`.  Go slices bytes and Lean slices code points; the
  two agree on ASCII text, and every identifier the mock produces is ASCII.
* `fmt.Sprintf("%d", n)` is `toString n` (decimal rendering of a natural number).
* `idCounter` is a Go `int`; it only ever counts upwards from zero, one step per created
  post or comment, and is modelled as a `Nat` (wrap-around after 2^63 creations is out of
  reach of any store that fits in memory).
* A Go map is an association list with pairwise distinct keys.  Go leaves the iteration
  order of a map unspecified; the list order stands for the order the next `range` loop
  uses, and `Reachable.reorder` lets that order change arbitrarily between operations.
* `*reddit.Comment` pointers: every comment object is created once, by `SubmitComment`,
  with a fresh `ID`, and is registered in `comments` under that `ID`.  The model stores the
  object's current value wherever Go stores the pointer, and a mutation of the object whose
  `ID` is `pid` (appending to its `Replies.Comments`) is applied to every stored copy of
  it.  This is exact on every state in which comment objects carry pairwise distinct `ID`s
  equal to their key in `comments` and no comment is its own ancestor, which covers every
  state `KVClient` can build.
* The mutex, the `context.Context` and the `Created` timestamps are not modelled: the
  embedding is sequential and nothing reads the timestamps.
* A Go `(value, error)` result is an `Except Error value`; operations that write to the
  mock also return the new mock state.
-/

namespace RedditKV

/-! ## Data model (`types.go` and the fields of `reddit.Post` / `reddit.Comment` in use) -/

/-- ValueNode of `types.go`: a value with an ordered list of children. -/
structure ValueNode where
  Value : String
  Children : List ValueNode

/-- The fields of `reddit.Post` that the package reads or writes. -/
structure Post where
  ID : String
  FullID : String
  Title : String
  Body : String
  SubredditName : String
deriving DecidableEq

/-- The fields of `reddit.Comment` in use; `Replies` stands for `Replies.Comments`. -/
structure Comment where
  ID : String
  FullID : String
  Body : String
  ParentID : String
  Replies : List Comment

/-- The record `reddit.Submitted` returned by `SubmitPost`. -/
structure Submitted where
  ID : String
  FullID : String
  URL : String
deriving DecidableEq

/-- The record `reddit.PostAndComments` returned by `GetPost`. -/
structure PostAndComments where
  Post : Post
  Comments : List Comment

/-- The record `reddit.ListOptions`; only `Limit` is read. -/
structure ListOptions where
  Limit : Int

/-- A Go `[]int` path argument: `none` is the nil slice, `some l` a non-nil slice. -/
abbrev Path := Option (List Int)

/-- Go `len(path)`: a nil slice has length zero. -/
def Path.len : Path → Nat
  | none => 0
  | some l => l.length

/-- Elements of a Go slice; a nil slice has none. -/
def Path.elems : Path → List Int
  | none => []
  | some l => l

/-- Errors of the package: the two typed errors of `types.go` and `fmt.Errorf` values. -/
inductive Error where
  | KeyNotFoundError (Key : String)
  | InvalidPathError (Path : Path)
  | Errorf (msg : String)

set_option linter.dupNamespace false in
/-- The `Error()` method of each error value. -/
def Error.Error : Error → String
  | .KeyNotFoundError key => "key not found: " ++ key
  | .InvalidPathError _ => "invalid path"
  | .Errorf msg => msg

/-! ## Go maps as association lists -/

/-- Go `v, ok := m[k]`. -/
def mapLookup {α : Type} (m : List (String × α)) (k : String) : Option α :=
  match m with
  | [] => none
  | e :: rest => if e.1 = k then some e.2 else mapLookup rest k

/-- Go `m[k] = v`: replaces the entry for `k`, or adds one. -/
def mapStore {α : Type} (m : List (String × α)) (k : String) (v : α) : List (String × α) :=
  match m with
  | [] => [(k, v)]
  | e :: rest => if e.1 = k then (k, v) :: rest else e :: mapStore rest k v

/-- Go `delete(m, k)`. -/
def mapDelete {α : Type} (m : List (String × α)) (k : String) : List (String × α) :=
  m.filter (fun e => e.1 ≠ k)

/-! ## The in-memory mock (`mock.go`) -/

/-- The struct `mockPost`: a post with its top-level comments. -/
structure mockPost where
  post : Post
  comments : List Comment

/-- The struct `MockRedditAPI`: posts by id, comments by id, and the id counter. -/
structure MockRedditAPI where
  posts : List (String × mockPost)
  comments : List (String × Comment)
  idCounter : Nat

/-- NewMockRedditAPI: two empty maps and a zero counter. -/
def NewMockRedditAPI : MockRedditAPI :=
  { posts := [], comments := [], idCounter := 0 }

/-- The method `nextID`: increments the counter and renders it in decimal. -/
def MockRedditAPI.nextID (m : MockRedditAPI) : String × MockRedditAPI :=
  let m1 := { m with idCounter := m.idCounter + 1 }
  (toString m1.idCounter, m1)

/-- SubmitPost: registers a new post with no comments under a fresh id. -/
def MockRedditAPI.SubmitPost (m : MockRedditAPI) (subreddit title text : String) :
    Except Error Submitted × MockRedditAPI :=
  let (id, m1) := m.nextID
  let fullID := "t3_" ++ id
  let post : Post :=
    { ID := id, FullID := fullID, Title := title, Body := text, SubredditName := subreddit }
  let m2 := { m1 with posts := mapStore m1.posts id { post := post, comments := [] } }
  (.ok { ID := id, FullID := fullID,
         URL := "https://reddit.com/r/" ++ subreddit ++ "/comments/" ++ id }, m2)

/-- GetPost: the post and its top-level comments, or an error for an unknown id. -/
def MockRedditAPI.GetPost (m : MockRedditAPI) (postID : String) :
    Except Error PostAndComments :=
  match mapLookup m.posts postID with
  | none => .error (.Errorf ("post not found: " ++ postID))
  | some mp => .ok { Post := mp.post, Comments := mp.comments }

/-- DeletePost: removes the entry of `posts`; the `comments` map is not touched. -/
def MockRedditAPI.DeletePost (m : MockRedditAPI) (postID : String) :
    Except Error Unit × MockRedditAPI :=
  match mapLookup m.posts postID with
  | none => (.error (.Errorf ("post not found: " ++ postID)), m)
  | some _ => (.ok (), { m with posts := mapDelete m.posts postID })

mutual
/-- The comment value after `c` was appended to the replies of the object with id `pid`. -/
def Comment.withReply (pid : String) (c : Comment) : Comment → Comment
  | ⟨id, fullID, body, parentID, replies⟩ =>
    ⟨id, fullID, body, parentID,
      if id = pid then withReplyEach pid c replies ++ [c] else withReplyEach pid c replies⟩
/-- The map of `Comment.withReply` over a list of comment values. -/
def withReplyEach (pid : String) (c : Comment) : List Comment → List Comment
  | [] => []
  | r :: rs => Comment.withReply pid c r :: withReplyEach pid c rs
end

/-- The in-place statement `parentComment.Replies.Comments = append(..., comment)` on the
object with id `pid`, carried out on every stored copy of that object. -/
def MockRedditAPI.appendReply (m : MockRedditAPI) (pid : String) (c : Comment) :
    MockRedditAPI :=
  { m with
    posts := m.posts.map
      (fun e => (e.1, { e.2 with comments := withReplyEach pid c e.2.comments }))
    comments := m.comments.map (fun e => (e.1, Comment.withReply pid c e.2)) }

/-- SubmitComment: registers a new comment and attaches it to the post or comment that
`parentID` names, if that parent exists. -/
def MockRedditAPI.SubmitComment (m : MockRedditAPI) (parentID text : String) :
    Except Error Comment × MockRedditAPI :=
  let (id, m1) := m.nextID
  let fullID := "t1_" ++ id
  let comment : Comment :=
    { ID := id, FullID := fullID, Body := text, ParentID := parentID, Replies := [] }
  let m2 := { m1 with comments := mapStore m1.comments id comment }
  let m3 :=
    if parentID.length > 3 ∧ parentID.take 3 = "t3_" then
      let postID := parentID.drop 3
      match mapLookup m2.posts postID with
      | some mp =>
        { m2 with
          posts := mapStore m2.posts postID { mp with comments := mp.comments ++ [comment] } }
      | none => m2
    else if parentID.length > 3 ∧ parentID.take 3 = "t1_" then
      let parentCommentID := parentID.drop 3
      match mapLookup m2.comments parentCommentID with
      | some _ => m2.appendReply parentCommentID comment
      | none => m2
    else m2
  (.ok comment, m3)

/-- ListNewPosts: the posts of the subreddit in map order, cut to `Limit` when positive. -/
def MockRedditAPI.ListNewPosts (m : MockRedditAPI) (subreddit : String)
    (opts : Option ListOptions) : Except Error (List Post) :=
  let posts := (m.posts.filter (fun e => e.2.post.SubredditName = subreddit)).map
    (fun e => e.2.post)
  match opts with
  | some o =>
    if o.Limit > 0 ∧ (posts.length : Int) > o.Limit then .ok (posts.take o.Limit.toNat)
    else .ok posts
  | none => .ok posts

/-- SearchPosts: the posts of the subreddit whose title equals the query, in map order. -/
def MockRedditAPI.SearchPosts (m : MockRedditAPI) (subreddit query : String) :
    Except Error (List Post) :=
  .ok ((m.posts.filter
    (fun e => e.2.post.SubredditName = subreddit ∧ e.2.post.Title = query)).map
    (fun e => e.2.post))

/-- GetPostCount: the number of entries of `posts`. -/
def MockRedditAPI.GetPostCount (m : MockRedditAPI) : Nat := m.posts.length

/-- GetCommentCount: the number of entries of `comments`. -/
def MockRedditAPI.GetCommentCount (m : MockRedditAPI) : Nat := m.comments.length

/-! ## Tree codec and path resolver (`client.go`) -/

mutual
/-- commentToValueNode: a comment with its replies, converted recursively. -/
def commentToValueNode : Comment → ValueNode
  | ⟨_, _, body, _, replies⟩ => ⟨body, convertEach replies⟩
/-- The loop `for _, reply := range ... { append(..., *commentToValueNode(reply)) }`. -/
def convertEach : List Comment → List ValueNode
  | [] => []
  | r :: rs => commentToValueNode r :: convertEach rs
end

/-- commentsToValueTree: nil for no comments, the sole comment converted, or the first
comment's text over the other top-level comments followed by the first one's replies. -/
def commentsToValueTree (comments : List Comment) : Option ValueNode :=
  match comments with
  | [] => none
  | [c] => some (commentToValueNode c)
  | c0 :: rest =>
    some
      { Value := c0.Body
        Children :=
          convertEach rest ++
            (if c0.Replies.length > 0 then convertEach c0.Replies else []) }

/-- navigateToComment: follows a path of indices through nested reply lists. -/
def navigateToComment (comments : List Comment) (path : List Int) : Except Error Comment :=
  match path with
  | [] => .error (.Errorf "invalid path")
  | idx :: rest =>
    if comments.length = 0 then .error (.Errorf "invalid path")
    else if idx < 0 ∨ idx ≥ (comments.length : Int) then
      .error (.Errorf "path index out of range")
    else
      match comments[idx.toNat]? with
      | none => .error (.Errorf "path index out of range")
      | some comment =>
        if rest.length = 0 then .ok comment
        else navigateToComment comment.Replies rest

/-! ## The client (`client.go`) -/

/-- KVClient: the subreddit it works on; its `api` is the mock state passed to each call. -/
structure KVClient where
  subreddit : String

/-- The method `findPostByTitle`: first search result whose title equals the key. -/
def KVClient.findPostByTitle (c : KVClient) (m : MockRedditAPI) (title : String) :
    Except Error (Option Post) :=
  match m.SearchPosts c.subreddit title with
  | .error e => .error e
  | .ok posts => .ok (posts.find? (fun p => p.Title = title))

/-- Set: deletes the post of the key if there is one, then creates a post titled with the
key and one top-level comment holding the value. -/
def KVClient.Set (c : KVClient) (m : MockRedditAPI) (key value : String) :
    Except Error Unit × MockRedditAPI :=
  match c.findPostByTitle m key with
  | .error e => (.error (.Errorf ("failed to check existing key: " ++ e.Error)), m)
  | .ok existingPost =>
    let deleted : Except Error Unit × MockRedditAPI :=
      match existingPost with
      | some p => m.DeletePost p.ID
      | none => (.ok (), m)
    match deleted with
    | (.error e, m1) => (.error (.Errorf ("failed to delete existing key: " ++ e.Error)), m1)
    | (.ok _, m1) =>
      match m1.SubmitPost c.subreddit key "" with
      | (.error e, m2) => (.error (.Errorf ("failed to create post: " ++ e.Error)), m2)
      | (.ok submitted, m2) =>
        match m2.SubmitComment submitted.FullID value with
        | (.error e, m3) => (.error (.Errorf ("failed to create comment: " ++ e.Error)), m3)
        | (.ok _, m3) => (.ok (), m3)

/-- Get: the value tree of a key; `KeyNotFoundError` without a post or without comments. -/
def KVClient.Get (c : KVClient) (m : MockRedditAPI) (key : String) :
    Except Error (Option ValueNode) :=
  match c.findPostByTitle m key with
  | .error e => .error (.Errorf ("failed to find key: " ++ e.Error))
  | .ok none => .error (.KeyNotFoundError key)
  | .ok (some post) =>
    match m.GetPost post.ID with
    | .error e => .error (.Errorf ("failed to get post: " ++ e.Error))
    | .ok postAndComments =>
      if postAndComments.Comments.length = 0 then .error (.KeyNotFoundError key)
      else .ok (commentsToValueTree postAndComments.Comments)

/-- Append: attaches a new comment to the post (nil or empty path) or to the comment the
path resolves to. -/
def KVClient.Append (c : KVClient) (m : MockRedditAPI) (key value : String)
    (parentPath : Path) : Except Error Unit × MockRedditAPI :=
  match c.findPostByTitle m key with
  | .error e => (.error (.Errorf ("failed to find key: " ++ e.Error)), m)
  | .ok none => (.error (.KeyNotFoundError key), m)
  | .ok (some post) =>
    match m.GetPost post.ID with
    | .error e => (.error (.Errorf ("failed to get post: " ++ e.Error)), m)
    | .ok postAndComments =>
      let parent : Except Error String :=
        if parentPath = none ∨ parentPath.len = 0 then .ok post.FullID
        else
          match navigateToComment postAndComments.Comments parentPath.elems with
          | .error _ => .error (.InvalidPathError parentPath)
          | .ok comment => .ok comment.FullID
      match parent with
      | .error e => (.error e, m)
      | .ok parentID =>
        match m.SubmitComment parentID value with
        | (.error e, m1) => (.error (.Errorf ("failed to create comment: " ++ e.Error)), m1)
        | (.ok _, m1) => (.ok (), m1)

/-- Delete: removes the post of the key; `KeyNotFoundError` when there is none. -/
def KVClient.Delete (c : KVClient) (m : MockRedditAPI) (key : String) :
    Except Error Unit × MockRedditAPI :=
  match c.findPostByTitle m key with
  | .error e => (.error (.Errorf ("failed to find key: " ++ e.Error)), m)
  | .ok none => (.error (.KeyNotFoundError key), m)
  | .ok (some post) =>
    match m.DeletePost post.ID with
    | (.error e, m1) => (.error (.Errorf ("failed to delete post: " ++ e.Error)), m1)
    | (.ok _, m1) => (.ok (), m1)

/-- Keys: the titles of at most 100 posts of the subreddit, in listing order. -/
def KVClient.Keys (c : KVClient) (m : MockRedditAPI) : Except Error (List String) :=
  match m.ListNewPosts c.subreddit (some { Limit := 100 }) with
  | .error e => .error (.Errorf ("failed to list posts: " ++ e.Error))
  | .ok posts => .ok (posts.map (fun post => post.Title))

/-- Exists: whether the exact-title lookup finds a post. -/
def KVClient.Exists (c : KVClient) (m : MockRedditAPI) (key : String) : Except Error Bool :=
  match c.findPostByTitle m key with
  | .error e => .error e
  | .ok post => .ok post.isSome

/-! ## Reachable stores -/

/-- The stores reachable from the empty mock through the writing operations of clients of
one subreddit.  `Get`, `Keys` and `Exists` only read the mock, so they add no state;
`reorder` accounts for the unspecified iteration order of the Go map `posts`. -/
inductive Reachable (sub : String) : MockRedditAPI → Prop where
  | init : Reachable sub NewMockRedditAPI
  | set (m : MockRedditAPI) (k v : String) :
      Reachable sub m → Reachable sub (KVClient.Set ⟨sub⟩ m k v).2
  | append (m : MockRedditAPI) (k v : String) (p : Path) :
      Reachable sub m → Reachable sub (KVClient.Append ⟨sub⟩ m k v p).2
  | delete (m : MockRedditAPI) (k : String) :
      Reachable sub m → Reachable sub (KVClient.Delete ⟨sub⟩ m k).2
  | reorder (m : MockRedditAPI) (ps : List (String × mockPost)) :
      Reachable sub m → ps.Perm m.posts → Reachable sub { m with posts := ps }

/-! ## Auxiliary definitions for the verification -/

/-- Numeric value of a decimal digit character. -/
def digitVal (c : Char) : Nat := c.toNat - 48

/-- Value of a decimal digit string read left to right, starting from `acc`. -/
def decimalValue (acc : Nat) (cs : List Char) : Nat :=
  cs.foldl (fun a c => 10 * a + digitVal c) acc

/-- Invariant of the reachable stores of one subreddit: every entry of `posts` is keyed by
its post id, belongs to the subreddit and carries an id issued by the counter; ids are
pairwise distinct, and so are titles. -/
structure Inv (sub : String) (m : MockRedditAPI) : Prop where
  ids : ∀ e ∈ m.posts, e.2.post.ID = e.1 ∧ e.2.post.FullID = "t3_" ++ e.1 ∧
    e.2.post.SubredditName = sub ∧ ∃ n, n ≤ m.idCounter ∧ e.1 = toString n
  keysNodup : (m.posts.map (fun e => e.1)).Nodup
  titlesNodup : (m.posts.map (fun e => e.2.post.Title)).Nodup

/-- Whether a path resolves in a raw reply structure: the path is non-empty, and at each
level the index is non-negative and below the number of nodes of that level, where the
next level is the reply list of the node selected. -/
def pathResolves : List Comment → List Int → Bool
  | _, [] => false
  | top, i :: rest =>
    decide (0 ≤ i) && decide (i < (top.length : Int)) &&
      (rest.isEmpty ||
        match top[i.toNat]? with
        | some c => pathResolves c.Replies rest
        | none => false)

/-- The stores produced from the empty mock by `Set` calls alone, with the list of the keys
that were set (latest first); `reorder` accounts for the unspecified iteration order of
the Go map `posts`. -/
inductive SetRun (sub : String) : List String → MockRedditAPI → Prop where
  | init : SetRun sub [] NewMockRedditAPI
  | set (ks : List String) (m : MockRedditAPI) (k v : String) :
      SetRun sub ks m → SetRun sub (k :: ks) (KVClient.Set ⟨sub⟩ m k v).2
  | reorder (ks : List String) (m : MockRedditAPI) (ps : List (String × mockPost)) :
      SetRun sub ks m → ps.Perm m.posts → SetRun sub ks { m with posts := ps }

/-- The post that `Set` creates for `key` with the given id. -/
def newPost (sub id key : String) : Post :=
  { ID := id, FullID := "t3_" ++ id, Title := key, Body := "", SubredditName := sub }

/-- The comment that `SubmitComment` creates with the given id. -/
def newComment (id parentID text : String) : Comment :=
  { ID := id, FullID := "t1_" ++ id, Body := text, ParentID := parentID, Replies := [] }

/-- The node `top[i0].replies[i1]...replies[ik]` addressed by the path `[i0, ..., ik]`;
there is none for the empty path, for a negative index and for an index beyond its level. -/
def nodeAt : List Comment → List Int → Option Comment
  | _, [] => none
  | top, i :: rest =>
    if i < 0 then none
    else
      match top[i.toNat]? with
      | none => none
      | some c => if rest.isEmpty then some c else nodeAt c.Replies rest

/-- The raw structure `top` with `leaf` added as the last reply of the node addressed by
the path, every other node kept as it is; with the empty path `leaf` becomes the last
top-level reply. -/
def insertAt : List Comment → List Int → Comment → List Comment
  | top, [], leaf => top ++ [leaf]
  | top, i :: rest, leaf =>
    if i < 0 then top
    else
      match top[i.toNat]? with
      | none => top
      | some c => top.set i.toNat { c with Replies := insertAt c.Replies rest leaf }

/-- The loop of `findPostByTitle` over the candidates the search returned: the first
candidate whose title equals the key, or nil. -/
def exactMatch (posts : List Post) (title : String) : Option Post :=
  match posts with
  | [] => none
  | post :: rest => if post.Title = title then some post else exactMatch rest title

mutual
/-- Number of nodes of a comment tree: the comment and everything beneath it. -/
def Comment.count : Comment → Nat
  | ⟨_, _, _, _, replies⟩ => 1 + countEach replies
/-- Number of nodes of a list of comment trees. -/
def countEach : List Comment → Nat
  | [] => 0
  | r :: rs => Comment.count r + countEach rs
end

mutual
/-- The `ID` and `FullID` of every node of a comment tree, parents before replies. -/
def Comment.refs : Comment → List (String × String)
  | ⟨id, fullID, _, _, replies⟩ => (id, fullID) :: refsEach replies
/-- The `ID` and `FullID` of every node of a list of comment trees. -/
def refsEach : List Comment → List (String × String)
  | [] => []
  | r :: rs => Comment.refs r ++ refsEach rs
end

/-- The `ID` and `FullID` of every comment reachable from an entry of `posts`. -/
def postRefs : List (String × mockPost) → List (String × String)
  | [] => []
  | e :: rest => refsEach e.2.comments ++ postRefs rest

/-- Invariant of the reachable stores on comments: every post has a top-level comment;
the comments reachable from `posts` carry pairwise distinct ids issued by the counter,
a `FullID` made of the tag `t1_` and the id, and an entry in `comments`. -/
structure InvC (m : MockRedditAPI) : Prop where
  nonempty : ∀ e ∈ m.posts, e.2.comments ≠ []
  distinct : ((postRefs m.posts).map (fun r => r.1)).Nodup
  wf : ∀ r ∈ postRefs m.posts, r.2 = "t1_" ++ r.1 ∧
    (∃ n, n ≤ m.idCounter ∧ r.1 = toString n) ∧ (mapLookup m.comments r.1).isSome

/-- The entries of `posts` with the top-level comments of the entry keyed `key` replaced
by `cs`. -/
def setComments (ps : List (String × mockPost)) (key : String) (cs : List Comment) :
    List (String × mockPost) :=
  ps.map (fun e => if e.1 = key then (e.1, ({ e.2 with comments := cs } : mockPost)) else e)

/-! ## Identifiers: decimal rendering and the `t3_` / `t1_` tags -/

theorem digitVal_digitChar (m : Nat) (h : m < 10) : digitVal (Nat.digitChar m) = m := by
  interval_cases m <;> rfl

theorem decimalValue_toDigitsCore (fuel : Nat) :
    ∀ (n : Nat) (ds : List Char), n < fuel →
      decimalValue 0 (Nat.toDigitsCore 10 fuel n ds) = decimalValue n ds := by
  induction fuel with
  | zero => intro n ds h; omega
  | succ f ih =>
    intro n ds h
    have hd : digitVal (Nat.digitChar (n % 10)) = n % 10 :=
      digitVal_digitChar _ (Nat.mod_lt _ (by decide))
    simp only [Nat.toDigitsCore]
    split
    · rename_i h0
      have hn : n % 10 = n := Nat.mod_eq_of_lt (by omega)
      simp only [decimalValue, List.foldl_cons, hd]
      simp [hn]
    · rename_i h0
      have hlt : n / 10 < f := by omega
      rw [ih (n / 10) _ hlt]
      simp only [decimalValue, List.foldl_cons, hd]
      congr 1
      omega

theorem toString_nat_injective {a b : Nat} (h : toString a = toString b) : a = b := by
  have h1 : (Nat.toDigits 10 a) = (Nat.toDigits 10 b) := by
    have := congrArg String.data h
    simpa [toString, Nat.repr, List.asString] using this
  have ha := decimalValue_toDigitsCore (a + 1) a [] (by omega)
  have hb := decimalValue_toDigitsCore (b + 1) b [] (by omega)
  simp only [Nat.toDigits] at h1
  rw [h1] at ha
  rw [ha] at hb
  simpa [decimalValue] using hb

theorem toDigitsCore_length (fuel : Nat) :
    ∀ (n : Nat) (ds : List Char),
      ds.length < (Nat.toDigitsCore 10 (fuel + 1) n ds).length := by
  induction fuel with
  | zero => intro n ds; simp [Nat.toDigitsCore]
  | succ f ih =>
    intro n ds
    rw [Nat.toDigitsCore]
    split
    · simp
    · have := ih (n / 10) (Nat.digitChar (n % 10) :: ds)
      simp only [List.length_cons] at this
      omega

theorem toString_nat_length_pos (a : Nat) : 0 < (toString a).length := by
  have := toDigitsCore_length a a []
  simpa [toString, Nat.repr, List.asString, Nat.toDigits, String.length] using this

theorem t3_length (s : String) (h : 0 < s.length) : ("t3_" ++ s).length > 3 := by
  rw [String.length_append]
  have : "t3_".length = 3 := by decide
  omega

theorem t1_length (s : String) (h : 0 < s.length) : ("t1_" ++ s).length > 3 := by
  rw [String.length_append]
  have : "t1_".length = 3 := by decide
  omega

theorem t3_take (s : String) : ("t3_" ++ s).take 3 = "t3_" := by
  rw [String.take_eq]; simp

theorem t1_take (s : String) : ("t1_" ++ s).take 3 = "t1_" := by
  rw [String.take_eq]; simp

theorem t3_drop (s : String) : ("t3_" ++ s).drop 3 = s := by
  rw [String.drop_eq]; simp

theorem t1_drop (s : String) : ("t1_" ++ s).drop 3 = s := by
  rw [String.drop_eq]; simp

theorem t1_ne_t3 : ("t1_" : String) ≠ "t3_" := by decide

/-! ## Association lists -/

section maps
variable {α : Type}

theorem mapLookup_of_mem (m : List (String × α)) (hnd : (m.map (fun e => e.1)).Nodup)
    (e : String × α) (he : e ∈ m) : mapLookup m e.1 = some e.2 := by
  induction m with
  | nil => cases he
  | cons a t ih =>
    simp only [List.map_cons, List.nodup_cons] at hnd
    rcases List.mem_cons.1 he with h | h
    · subst h; simp [mapLookup]
    · have hne : a.1 ≠ e.1 := by
        intro hEq
        exact hnd.1 (hEq ▸ List.mem_map_of_mem (fun e => e.1) h)
      simp [mapLookup, hne, ih hnd.2 h]

theorem mapLookup_eq_none (m : List (String × α)) (k : String)
    (h : ∀ e ∈ m, e.1 ≠ k) : mapLookup m k = none := by
  induction m with
  | nil => rfl
  | cons a t ih =>
    have ha := h a (List.mem_cons_self _ _)
    simp [mapLookup, ha, ih (fun e he => h e (List.mem_cons_of_mem _ he))]

theorem mem_of_mapLookup (m : List (String × α)) (k : String) (v : α)
    (h : mapLookup m k = some v) : (k, v) ∈ m := by
  induction m with
  | nil => simp [mapLookup] at h
  | cons a t ih =>
    simp only [mapLookup] at h
    split at h
    · rename_i hk
      cases h
      rw [← hk]
      exact List.mem_cons_self _ _
    · exact List.mem_cons_of_mem _ (ih h)

theorem mapStore_fresh (m : List (String × α)) (k : String) (v : α)
    (h : ∀ e ∈ m, e.1 ≠ k) : mapStore m k v = m ++ [(k, v)] := by
  induction m with
  | nil => rfl
  | cons a t ih =>
    have ha := h a (List.mem_cons_self _ _)
    simp [mapStore, ha, ih (fun e he => h e (List.mem_cons_of_mem _ he))]

theorem mapStore_last (m : List (String × α)) (k : String) (v w : α)
    (h : ∀ e ∈ m, e.1 ≠ k) : mapStore (m ++ [(k, v)]) k w = m ++ [(k, w)] := by
  induction m with
  | nil => simp [mapStore]
  | cons a t ih =>
    have ha := h a (List.mem_cons_self _ _)
    simp [mapStore, ha, ih (fun e he => h e (List.mem_cons_of_mem _ he))]

theorem mapLookup_last (m : List (String × α)) (k : String) (v : α)
    (h : ∀ e ∈ m, e.1 ≠ k) : mapLookup (m ++ [(k, v)]) k = some v := by
  induction m with
  | nil => simp [mapLookup]
  | cons a t ih =>
    have ha := h a (List.mem_cons_self _ _)
    simp [mapLookup, ha, ih (fun e he => h e (List.mem_cons_of_mem _ he))]

theorem mapLookup_mapStore_isSome (m : List (String × α)) (k k' : String) (v : α)
    (h : (mapLookup m k).isSome) : (mapLookup (mapStore m k' v) k).isSome := by
  induction m with
  | nil => simp [mapLookup] at h
  | cons a t ih =>
    simp only [mapLookup] at h
    simp only [mapStore]
    by_cases hk' : a.1 = k'
    · simp only [hk', if_true, mapLookup]
      by_cases hk : a.1 = k
      · simp [← hk', hk]
      · simp only [hk, if_false] at h
        have : ¬ k' = k := fun hh => hk (hk'.trans hh)
        simpa [this] using h
    · simp only [hk', if_false, mapLookup]
      by_cases hk : a.1 = k
      · simp [hk]
      · simp only [hk, if_false] at h ⊢
        exact ih h

theorem mapLookup_mapStore_same (m : List (String × α)) (k : String) (v : α) :
    mapLookup (mapStore m k v) k = some v := by
  induction m with
  | nil => simp [mapStore, mapLookup]
  | cons a t ih =>
    by_cases hk : a.1 = k
    · simp [mapStore, mapLookup, hk]
    · simp [mapStore, mapLookup, hk, ih]

end maps

/-! ## Codec loops as maps -/

theorem convertEach_eq_map (l : List Comment) :
    convertEach l = l.map commentToValueNode := by
  induction l with
  | nil => simp [convertEach]
  | cons a t ih => simp [convertEach, ih]

theorem withReplyEach_eq_map (pid : String) (c : Comment) (l : List Comment) :
    withReplyEach pid c l = l.map (Comment.withReply pid c) := by
  induction l with
  | nil => simp [withReplyEach]
  | cons a t ih => simp [withReplyEach, ih]

theorem commentToValueNode_eq (c : Comment) :
    commentToValueNode c = ⟨c.Body, c.Replies.map commentToValueNode⟩ := by
  cases c
  simp [commentToValueNode, convertEach_eq_map]

/-! ## Exact-title lookup -/

theorem findPostByTitle_none (sub : String) (m : MockRedditAPI) (k : String)
    (h : ∀ e ∈ m.posts, ¬ (e.2.post.SubredditName = sub ∧ e.2.post.Title = k)) :
    KVClient.findPostByTitle ⟨sub⟩ m k = .ok none := by
  have hf : m.posts.filter
      (fun e => e.2.post.SubredditName = sub ∧ e.2.post.Title = k) = [] := by
    rw [List.filter_eq_nil_iff]
    intro e he
    simpa using h e he
  simp only [KVClient.findPostByTitle, MockRedditAPI.SearchPosts, hf]
  rfl

theorem title_injective {sub : String} {m : MockRedditAPI} (h : Inv sub m)
    {e e' : String × mockPost} (he : e ∈ m.posts) (he' : e' ∈ m.posts)
    (ht : e.2.post.Title = e'.2.post.Title) : e = e' :=
  List.inj_on_of_nodup_map h.titlesNodup he he' ht

theorem findPostByTitle_of_mem {sub : String} {m : MockRedditAPI} (h : Inv sub m)
    {e : String × mockPost} (he : e ∈ m.posts) :
    KVClient.findPostByTitle ⟨sub⟩ m e.2.post.Title = .ok (some e.2.post) := by
  have hsub := (h.ids e he).2.2.1
  simp only [KVClient.findPostByTitle, MockRedditAPI.SearchPosts]
  cases hl : m.posts.filter
      (fun e' => e'.2.post.SubredditName = sub ∧ e'.2.post.Title = e.2.post.Title) with
  | nil =>
    have : e ∈ m.posts.filter
        (fun e' => e'.2.post.SubredditName = sub ∧ e'.2.post.Title = e.2.post.Title) := by
      simp [List.mem_filter, he, hsub]
    rw [hl] at this
    cases this
  | cons a t =>
    have ha : a ∈ m.posts.filter
        (fun e' => e'.2.post.SubredditName = sub ∧ e'.2.post.Title = e.2.post.Title) := by
      rw [hl]; exact List.mem_cons_self _ _
    rw [List.mem_filter] at ha
    have hat : a.2.post.Title = e.2.post.Title := (of_decide_eq_true ha.2).2
    have hae : a = e := title_injective h ha.1 he hat
    subst hae
    simp

theorem getPost_of_mem {sub : String} {m : MockRedditAPI} (h : Inv sub m)
    {e : String × mockPost} (he : e ∈ m.posts) :
    m.GetPost e.2.post.ID = .ok { Post := e.2.post, Comments := e.2.comments } := by
  rw [(h.ids e he).1]
  simp [MockRedditAPI.GetPost, mapLookup_of_mem m.posts h.keysNodup e he]

theorem Get_of_mem {sub : String} {m : MockRedditAPI} (h : Inv sub m)
    {e : String × mockPost} (he : e ∈ m.posts) :
    KVClient.Get ⟨sub⟩ m e.2.post.Title =
      if e.2.comments.length = 0 then .error (.KeyNotFoundError e.2.post.Title)
      else .ok (commentsToValueTree e.2.comments) := by
  simp only [KVClient.Get, findPostByTitle_of_mem h he, getPost_of_mem h he]

theorem Get_of_absent (sub : String) (m : MockRedditAPI) (k : String)
    (h : ∀ e ∈ m.posts, ¬ (e.2.post.SubredditName = sub ∧ e.2.post.Title = k)) :
    KVClient.Get ⟨sub⟩ m k = .error (.KeyNotFoundError k) := by
  simp only [KVClient.Get, findPostByTitle_none sub m k h]

theorem Exists_of_absent (sub : String) (m : MockRedditAPI) (k : String)
    (h : ∀ e ∈ m.posts, ¬ (e.2.post.SubredditName = sub ∧ e.2.post.Title = k)) :
    KVClient.Exists ⟨sub⟩ m k = .ok false := by
  simp [KVClient.Exists, findPostByTitle_none sub m k h]

theorem Exists_of_mem {sub : String} {m : MockRedditAPI} (h : Inv sub m)
    {e : String × mockPost} (he : e ∈ m.posts) :
    KVClient.Exists ⟨sub⟩ m e.2.post.Title = .ok true := by
  simp [KVClient.Exists, findPostByTitle_of_mem h he]

/-- Under the invariant a key either has exactly one entry or none in the subreddit. -/
theorem mem_or_absent {sub : String} {m : MockRedditAPI} (k : String) :
    (∃ e ∈ m.posts, e.2.post.Title = k) ∨
      (∀ e ∈ m.posts, ¬ (e.2.post.SubredditName = sub ∧ e.2.post.Title = k)) := by
  by_cases hex : ∃ e ∈ m.posts, e.2.post.Title = k
  · exact Or.inl hex
  · right
    intro e he hc
    exact hex ⟨e, he, hc.2⟩


/-! ## The mock's writing operations -/

theorem SubmitPost_fresh (m : MockRedditAPI) (sub k text : String)
    (hfresh : ∀ e ∈ m.posts, e.1 ≠ toString (m.idCounter + 1)) :
    m.SubmitPost sub k text =
      (.ok { ID := toString (m.idCounter + 1), FullID := "t3_" ++ toString (m.idCounter + 1),
             URL := "https://reddit.com/r/" ++ sub ++ "/comments/" ++
               toString (m.idCounter + 1) },
        { posts := m.posts ++ [(toString (m.idCounter + 1),
            { post := { ID := toString (m.idCounter + 1),
                        FullID := "t3_" ++ toString (m.idCounter + 1),
                        Title := k, Body := text, SubredditName := sub },
              comments := [] })],
          comments := m.comments,
          idCounter := m.idCounter + 1 }) := by
  simp only [MockRedditAPI.SubmitPost, MockRedditAPI.nextID]
  rw [mapStore_fresh m.posts _ _ hfresh]

theorem SubmitComment_post (m : MockRedditAPI) (pid v : String) (mp : mockPost)
    (hpid : 0 < pid.length) (hl : mapLookup m.posts pid = some mp) :
    m.SubmitComment ("t3_" ++ pid) v =
      (.ok (newComment (toString (m.idCounter + 1)) ("t3_" ++ pid) v),
        { posts := mapStore m.posts pid
            { mp with comments := mp.comments ++
                [newComment (toString (m.idCounter + 1)) ("t3_" ++ pid) v] },
          comments := mapStore m.comments (toString (m.idCounter + 1))
            (newComment (toString (m.idCounter + 1)) ("t3_" ++ pid) v),
          idCounter := m.idCounter + 1 }) := by
  simp only [MockRedditAPI.SubmitComment, MockRedditAPI.nextID, t3_take, t3_drop,
    t3_length pid hpid, hl, newComment]
  simp

theorem SubmitComment_comment (m : MockRedditAPI) (pid v : String)
    (hpid : 0 < pid.length) (hl : (mapLookup m.comments pid).isSome) :
    m.SubmitComment ("t1_" ++ pid) v =
      (.ok (newComment (toString (m.idCounter + 1)) ("t1_" ++ pid) v),
        MockRedditAPI.appendReply
          { posts := m.posts
            comments := mapStore m.comments (toString (m.idCounter + 1))
              (newComment (toString (m.idCounter + 1)) ("t1_" ++ pid) v)
            idCounter := m.idCounter + 1 }
          pid (newComment (toString (m.idCounter + 1)) ("t1_" ++ pid) v)) := by
  have h2 := mapLookup_mapStore_isSome m.comments pid (toString (m.idCounter + 1))
    (newComment (toString (m.idCounter + 1)) ("t1_" ++ pid) v) hl
  obtain ⟨x, hx⟩ := Option.isSome_iff_exists.1 h2
  simp only [newComment] at hx
  simp only [MockRedditAPI.SubmitComment, MockRedditAPI.nextID, t1_take, t1_drop,
    t1_length pid hpid, t1_ne_t3, hx, newComment]
  simp

theorem fresh_of_inv {sub : String} {m : MockRedditAPI} (h : Inv sub m)
    (ps : List (String × mockPost)) (hps : ∀ e ∈ ps, e ∈ m.posts) (j : Nat) (hj : 0 < j) :
    ∀ e ∈ ps, e.1 ≠ toString (m.idCounter + j) := by
  intro e he hEq
  obtain ⟨n, hn, hid⟩ := (h.ids e (hps e he)).2.2.2
  rw [hid] at hEq
  have := toString_nat_injective hEq
  omega

/-- The store that `Set` leaves: the entries `ps0` kept from before, then the new post. -/
theorem Set_spec {sub : String} {m : MockRedditAPI} (h : Inv sub m) (k v : String) :
    ∃ ps0 : List (String × mockPost),
      ps0.Sublist m.posts ∧ (∀ e ∈ ps0, e.2.post.Title ≠ k) ∧
      (∀ e ∈ m.posts, e.2.post.Title ≠ k → e ∈ ps0) ∧
      KVClient.Set ⟨sub⟩ m k v =
        (.ok (),
          { posts := ps0 ++ [(toString (m.idCounter + 1),
              { post := newPost sub (toString (m.idCounter + 1)) k,
                comments := [newComment (toString (m.idCounter + 2))
                  ("t3_" ++ toString (m.idCounter + 1)) v] })],
            comments := mapStore m.comments (toString (m.idCounter + 2))
              (newComment (toString (m.idCounter + 2))
                ("t3_" ++ toString (m.idCounter + 1)) v),
            idCounter := m.idCounter + 2 }) := by
  -- the part of `Set` after the optional delete, on a store whose posts are `ps0`
  have tail : ∀ ps0 : List (String × mockPost), (∀ e ∈ ps0, e ∈ m.posts) →
      (match ({ m with posts := ps0 } : MockRedditAPI).SubmitPost sub k "" with
        | (.error e, m2) =>
          ((.error (.Errorf ("failed to create post: " ++ e.Error)), m2) :
            Except Error Unit × MockRedditAPI)
        | (.ok submitted, m2) =>
          match m2.SubmitComment submitted.FullID v with
          | (.error e, m3) =>
            (.error (.Errorf ("failed to create comment: " ++ e.Error)), m3)
          | (.ok _, m3) => (.ok (), m3)) =
        (.ok (),
          { posts := ps0 ++ [(toString (m.idCounter + 1),
              { post := newPost sub (toString (m.idCounter + 1)) k,
                comments := [newComment (toString (m.idCounter + 2))
                  ("t3_" ++ toString (m.idCounter + 1)) v] })],
            comments := mapStore m.comments (toString (m.idCounter + 2))
              (newComment (toString (m.idCounter + 2))
                ("t3_" ++ toString (m.idCounter + 1)) v),
            idCounter := m.idCounter + 2 }) := by
    intro ps0 hps
    have hfresh := fresh_of_inv h ps0 hps 1 (by omega)
    rw [SubmitPost_fresh _ sub k "" hfresh]
    simp only []
    rw [SubmitComment_post _ (toString (m.idCounter + 1)) v
      { post := newPost sub (toString (m.idCounter + 1)) k, comments := [] }
      (toString_nat_length_pos _) (mapLookup_last _ _ _ hfresh)]
    simp only [mapStore_last _ _ _ _ hfresh, List.nil_append]
  rcases @mem_or_absent sub m k with ⟨e, he, hek⟩ | habs
  · refine ⟨mapDelete m.posts e.1, List.filter_sublist _, ?_, ?_, ?_⟩
    · intro e' he' ht
      have hm : e' ∈ m.posts := (List.mem_filter.1 he').1
      have : e' = e := title_injective h hm he (ht.trans hek.symm)
      subst this
      simpa [mapDelete] using (List.mem_filter.1 he').2
    · intro e' he' ht
      refine List.mem_filter.2 ⟨he', ?_⟩
      have : e'.1 ≠ e.1 := by
        intro hEq
        have hh := mapLookup_of_mem m.posts h.keysNodup e' he'
        rw [hEq, mapLookup_of_mem m.posts h.keysNodup e he] at hh
        have h2 : e' = e := Prod.ext hEq (Option.some.inj hh).symm
        exact ht (h2 ▸ hek)
      simpa using this
    · have hfind := findPostByTitle_of_mem h he
      rw [hek] at hfind
      have hdel : m.DeletePost e.2.post.ID =
          (.ok (), { m with posts := mapDelete m.posts e.1 }) := by
        rw [(h.ids e he).1]
        simp [MockRedditAPI.DeletePost, mapLookup_of_mem m.posts h.keysNodup e he]
      simp only [KVClient.Set, hfind, hdel]
      exact tail (mapDelete m.posts e.1) (fun e' he' => (List.mem_filter.1 he').1)
  · refine ⟨m.posts, List.Sublist.refl _, ?_, fun e he _ => he, ?_⟩
    · intro e he ht
      exact habs e he ⟨(h.ids e he).2.2.1, ht⟩
    · simp only [KVClient.Set, findPostByTitle_none sub m k habs]
      exact tail m.posts (fun e he => he)


/-! ## The invariant holds in every reachable store -/

theorem Inv_init (sub : String) : Inv sub NewMockRedditAPI :=
  ⟨fun e he => (by cases he), List.nodup_nil, List.nodup_nil⟩

theorem Inv_of_sublist {sub : String} {m : MockRedditAPI} (h : Inv sub m)
    (ps : List (String × mockPost)) (hps : ps.Sublist m.posts) :
    Inv sub { m with posts := ps } :=
  ⟨fun e he => h.ids e (hps.subset he),
   (h.keysNodup).sublist (hps.map _),
   (h.titlesNodup).sublist (hps.map _)⟩

theorem Inv_of_perm {sub : String} {m : MockRedditAPI} (h : Inv sub m)
    (ps : List (String × mockPost)) (hps : ps.Perm m.posts) :
    Inv sub { m with posts := ps } :=
  ⟨fun e he => h.ids e (hps.subset he),
   ((hps.map _).nodup_iff).2 h.keysNodup,
   ((hps.map _).nodup_iff).2 h.titlesNodup⟩

theorem Inv_of_skeleton {sub : String} {m m' : MockRedditAPI} (h : Inv sub m)
    (hs : m'.posts.map (fun e => (e.1, e.2.post)) = m.posts.map (fun e => (e.1, e.2.post)))
    (hc : m.idCounter ≤ m'.idCounter) : Inv sub m' := by
  have hk : m'.posts.map (fun e => e.1) = m.posts.map (fun e => e.1) := by
    have := congrArg (List.map Prod.fst) hs
    simpa [List.map_map, Function.comp_def] using this
  have ht : m'.posts.map (fun e => e.2.post.Title) =
      m.posts.map (fun e => e.2.post.Title) := by
    have := congrArg (List.map (fun x : String × Post => x.2.Title)) hs
    simpa [List.map_map, Function.comp_def] using this
  refine ⟨?_, hk ▸ h.keysNodup, ht ▸ h.titlesNodup⟩
  intro e' he'
  have hm : (e'.1, e'.2.post) ∈ m.posts.map (fun e => (e.1, e.2.post)) := by
    rw [← hs]
    exact List.mem_map_of_mem (fun e => (e.1, e.2.post)) he'
  obtain ⟨e, he, hee⟩ := List.mem_map.1 hm
  have h1 : e.1 = e'.1 := (Prod.mk.inj hee).1
  have h2 : e.2.post = e'.2.post := (Prod.mk.inj hee).2
  obtain ⟨a, b, c, n, hn, hid⟩ := h.ids e he
  rw [← h1, ← h2]
  exact ⟨a, b, c, n, le_trans hn hc, hid⟩

theorem skeleton_mapStore (ps : List (String × mockPost)) (k : String) (mp : mockPost)
    (cs : List Comment) (hl : mapLookup ps k = some mp) :
    (mapStore ps k { mp with comments := cs }).map (fun e => (e.1, e.2.post)) =
      ps.map (fun e => (e.1, e.2.post)) := by
  induction ps with
  | nil => simp [mapLookup] at hl
  | cons a t ih =>
    simp only [mapLookup] at hl
    by_cases hk : a.1 = k
    · simp only [hk, if_true] at hl
      cases hl
      simp [mapStore, hk]
    · simp only [hk, if_false] at hl
      simp [mapStore, hk, ih hl]

theorem SubmitComment_skeleton (m : MockRedditAPI) (parentID v : String) :
    (m.SubmitComment parentID v).2.posts.map (fun e => (e.1, e.2.post)) =
      m.posts.map (fun e => (e.1, e.2.post)) ∧
    (m.SubmitComment parentID v).2.idCounter = m.idCounter + 1 := by
  simp only [MockRedditAPI.SubmitComment, MockRedditAPI.nextID]
  split_ifs with h1 h2
  · cases hl : mapLookup m.posts (parentID.drop 3) with
    | none => simp
    | some mp => simp [skeleton_mapStore _ _ _ _ hl]
  · cases hl : mapLookup (mapStore m.comments (toString (m.idCounter + 1))
        { ID := toString (m.idCounter + 1), FullID := "t1_" ++ toString (m.idCounter + 1),
          Body := v, ParentID := parentID, Replies := [] }) (parentID.drop 3) with
    | none => simp
    | some x => simp [MockRedditAPI.appendReply, List.map_map, Function.comp_def]
  · simp

theorem Append_state (c : KVClient) (m : MockRedditAPI) (k v : String) (p : Path) :
    (c.Append m k v p).2 = m ∨ ∃ pid, (c.Append m k v p).2 = (m.SubmitComment pid v).2 := by
  simp only [KVClient.Append]
  split
  · exact Or.inl rfl
  · exact Or.inl rfl
  · split
    · exact Or.inl rfl
    · split
      · exact Or.inl rfl
      · rename_i pid _
        right
        refine ⟨pid, ?_⟩
        split <;> simp_all

theorem Delete_state (c : KVClient) (m : MockRedditAPI) (k : String) :
    (c.Delete m k).2 = m ∨ ∃ id, (c.Delete m k).2 = { m with posts := mapDelete m.posts id } := by
  simp only [KVClient.Delete]
  split
  · exact Or.inl rfl
  · exact Or.inl rfl
  · rename_i post _
    simp only [MockRedditAPI.DeletePost]
    cases mapLookup m.posts post.ID with
    | none => exact Or.inl rfl
    | some x => exact Or.inr ⟨post.ID, rfl⟩

theorem Inv_Set {sub : String} {m : MockRedditAPI} (h : Inv sub m) (k v : String) :
    Inv sub (KVClient.Set ⟨sub⟩ m k v).2 := by
  obtain ⟨ps0, hsub, hno, -, heq⟩ := Set_spec h k v
  rw [heq]
  have hfresh := fresh_of_inv h ps0 (fun e he => hsub.subset he) 1 (by omega)
  refine ⟨?_, ?_, ?_⟩
  · intro e he
    rcases List.mem_append.1 he with he | he
    · obtain ⟨a, b, c, n, hn, hid⟩ := h.ids e (hsub.subset he)
      exact ⟨a, b, c, n, by simp only []; omega, hid⟩
    · rw [List.mem_singleton] at he
      subst he
      exact ⟨rfl, rfl, rfl, m.idCounter + 1, by simp only []; omega, rfl⟩
  · simp only [List.map_append, List.map_cons, List.map_nil]
    refine List.Nodup.append ((h.keysNodup).sublist (hsub.map _)) (List.nodup_singleton _) ?_
    intro x hx hx'
    rw [List.mem_singleton] at hx'
    obtain ⟨e, he, rfl⟩ := List.mem_map.1 hx
    exact hfresh e he hx'
  · simp only [List.map_append, List.map_cons, List.map_nil]
    refine List.Nodup.append ((h.titlesNodup).sublist (hsub.map _)) (List.nodup_singleton _) ?_
    intro x hx hx'
    rw [List.mem_singleton] at hx'
    obtain ⟨e, he, rfl⟩ := List.mem_map.1 hx
    exact hno e he hx'

theorem Inv_Append {sub : String} {m : MockRedditAPI} (h : Inv sub m) (c : KVClient)
    (k v : String) (p : Path) : Inv sub (c.Append m k v p).2 := by
  rcases Append_state c m k v p with heq | ⟨pid, heq⟩
  · rw [heq]; exact h
  · rw [heq]
    have hs := SubmitComment_skeleton m pid v
    exact Inv_of_skeleton h hs.1 (by rw [hs.2]; omega)

theorem Inv_Delete {sub : String} {m : MockRedditAPI} (h : Inv sub m) (c : KVClient)
    (k : String) : Inv sub (c.Delete m k).2 := by
  rcases Delete_state c m k with heq | ⟨id, heq⟩
  · rw [heq]; exact h
  · rw [heq]; exact Inv_of_sublist h _ (List.filter_sublist _)

theorem Inv_of_Reachable {sub : String} {m : MockRedditAPI} (h : Reachable sub m) :
    Inv sub m := by
  induction h with
  | init => exact Inv_init sub
  | set m k v _ ih => exact Inv_Set ih k v
  | append m k v p _ ih => exact Inv_Append ih ⟨sub⟩ k v p
  | delete m k _ ih => exact Inv_Delete ih ⟨sub⟩ k
  | reorder m ps _ hp ih => exact Inv_of_perm ih ps hp

/-! ## Explicit results of `Append` and `Delete` on an existing key -/

theorem key_length_pos {sub : String} {m : MockRedditAPI} (h : Inv sub m)
    {e : String × mockPost} (he : e ∈ m.posts) : 0 < e.1.length := by
  obtain ⟨-, -, -, n, -, hid⟩ := h.ids e he
  rw [hid]
  exact toString_nat_length_pos n

theorem Append_root_spec {sub : String} {m : MockRedditAPI} (h : Inv sub m)
    {e : String × mockPost} (he : e ∈ m.posts) (v : String) (p : Path)
    (hp : p = none ∨ p = some []) :
    KVClient.Append ⟨sub⟩ m e.2.post.Title v p =
      (.ok (),
        { posts := mapStore m.posts e.1
            { e.2 with comments := e.2.comments ++
                [newComment (toString (m.idCounter + 1)) ("t3_" ++ e.1) v] },
          comments := mapStore m.comments (toString (m.idCounter + 1))
            (newComment (toString (m.idCounter + 1)) ("t3_" ++ e.1) v),
          idCounter := m.idCounter + 1 }) := by
  have hcond : p = none ∨ p.len = 0 := by
    rcases hp with hp | hp
    · exact Or.inl hp
    · right; subst hp; rfl
  simp only [KVClient.Append, findPostByTitle_of_mem h he, getPost_of_mem h he, hcond,
    if_true, (h.ids e he).2.1]
  rw [SubmitComment_post m e.1 v e.2 (key_length_pos h he)
    (mapLookup_of_mem m.posts h.keysNodup e he)]

theorem Append_path_spec {sub : String} {m : MockRedditAPI} (h : Inv sub m)
    {e : String × mockPost} (he : e ∈ m.posts) (v : String) (l : List Int) (t : Comment)
    (hl : l ≠ []) (hnav : navigateToComment e.2.comments l = .ok t)
    (hfull : t.FullID = "t1_" ++ t.ID) (hlen : 0 < t.ID.length)
    (hreg : (mapLookup m.comments t.ID).isSome) :
    KVClient.Append ⟨sub⟩ m e.2.post.Title v (some l) =
      (.ok (),
        MockRedditAPI.appendReply
          { posts := m.posts
            comments := mapStore m.comments (toString (m.idCounter + 1))
              (newComment (toString (m.idCounter + 1)) ("t1_" ++ t.ID) v)
            idCounter := m.idCounter + 1 }
          t.ID (newComment (toString (m.idCounter + 1)) ("t1_" ++ t.ID) v)) := by
  have hcond : ¬ ((some l : Path) = none ∨ Path.len (some l) = 0) := by
    simp [Path.len, hl]
  simp only [KVClient.Append, findPostByTitle_of_mem h he, getPost_of_mem h he, hcond,
    if_false, Path.elems, hnav, hfull]
  rw [SubmitComment_comment m t.ID v hlen hreg]

theorem Delete_spec {sub : String} {m : MockRedditAPI} (h : Inv sub m)
    {e : String × mockPost} (he : e ∈ m.posts) :
    KVClient.Delete ⟨sub⟩ m e.2.post.Title =
      (.ok (), { m with posts := mapDelete m.posts e.1 }) := by
  simp only [KVClient.Delete, findPostByTitle_of_mem h he, MockRedditAPI.DeletePost,
    (h.ids e he).1, mapLookup_of_mem m.posts h.keysNodup e he]

theorem absent_after_delete {sub : String} {m : MockRedditAPI} (h : Inv sub m)
    {e : String × mockPost} (he : e ∈ m.posts) :
    ∀ e' ∈ mapDelete m.posts e.1,
      ¬ (e'.2.post.SubredditName = sub ∧ e'.2.post.Title = e.2.post.Title) := by
  intro e' he' hc
  have hm : e' ∈ m.posts := (List.mem_filter.1 he').1
  have : e' = e := title_injective h hm he hc.2
  subst this
  simpa [mapDelete] using (List.mem_filter.1 he').2

/-- After `Set`, the store is reachable-invariant and holds the entry of the new post. -/
theorem Set_entry {sub : String} {m : MockRedditAPI} (h : Inv sub m) (k v : String) :
    (KVClient.Set ⟨sub⟩ m k v).1 = .ok () ∧
    Inv sub (KVClient.Set ⟨sub⟩ m k v).2 ∧
    (toString (m.idCounter + 1),
      ({ post := newPost sub (toString (m.idCounter + 1)) k,
         comments := [newComment (toString (m.idCounter + 2))
           ("t3_" ++ toString (m.idCounter + 1)) v] } : mockPost)) ∈
      (KVClient.Set ⟨sub⟩ m k v).2.posts ∧
    (mapLookup (KVClient.Set ⟨sub⟩ m k v).2.comments (toString (m.idCounter + 2))).isSome ∧
    (KVClient.Set ⟨sub⟩ m k v).2.idCounter = m.idCounter + 2 := by
  have hinv := Inv_Set h k v
  obtain ⟨ps0, -, -, -, heq⟩ := Set_spec h k v
  rw [heq] at hinv ⊢
  refine ⟨rfl, hinv, by simp, ?_, rfl⟩
  simp [mapLookup_mapStore_same]

theorem mem_mapStore {α : Type} (m : List (String × α)) (k : String) (v : α) :
    (k, v) ∈ mapStore m k v :=
  mem_of_mapLookup _ _ _ (mapLookup_mapStore_same m k v)

/-! ## Claims -/

/-- Under the invariant, `Set` succeeds and the next `Get` returns the scalar tree. -/
theorem Get_after_Set {sub : String} {m : MockRedditAPI} (h : Inv sub m) (k v : String) :
    (KVClient.Set ⟨sub⟩ m k v).1 = .ok () ∧
    KVClient.Get ⟨sub⟩ (KVClient.Set ⟨sub⟩ m k v).2 k =
      .ok (some { Value := v, Children := [] }) := by
  obtain ⟨hok, hinv, hmem, -, -⟩ := Set_entry h k v
  refine ⟨hok, ?_⟩
  have := Get_of_mem hinv hmem
  simpa [newPost, newComment, commentsToValueTree, commentToValueNode, convertEach]
    using this

/-- C1: in every store reachable through client operations on one subreddit, `Set(k, v)`
succeeds and the `Get(k)` that follows returns the tree with root value `v` and an empty
list of children. -/
theorem set_then_get (sub : String) (m : MockRedditAPI) (k v : String)
    (h : Reachable sub m) :
    (KVClient.Set ⟨sub⟩ m k v).1 = .ok () ∧
    KVClient.Get ⟨sub⟩ (KVClient.Set ⟨sub⟩ m k v).2 k =
      .ok (some { Value := v, Children := [] }) :=
  Get_after_Set (Inv_of_Reachable h) k v

/-- Witness for C1 at the store left by one earlier `Set`. -/
theorem set_then_get_witness :
    Reachable "kv" (KVClient.Set ⟨"kv"⟩ NewMockRedditAPI "a" "b").2 ∧
    ((KVClient.Set ⟨"kv"⟩ (KVClient.Set ⟨"kv"⟩ NewMockRedditAPI "a" "b").2
        "mykey" "myvalue").1 = .ok () ∧
      KVClient.Get ⟨"kv"⟩
        (KVClient.Set ⟨"kv"⟩ (KVClient.Set ⟨"kv"⟩ NewMockRedditAPI "a" "b").2
          "mykey" "myvalue").2 "mykey" =
        .ok (some { Value := "myvalue", Children := [] })) :=
  ⟨Reachable.set _ "a" "b" Reachable.init,
   set_then_get "kv" _ "mykey" "myvalue" (Reachable.set _ "a" "b" Reachable.init)⟩

/-- C2: from a reachable store, after `Set(k, v1)` and `Set(k, v2)` (both succeed) the
store holds exactly one post titled `k` in the subreddit, `Get(k)` returns the tree with
root value `v2` and no children, and from the empty store the post count is 1. -/
theorem set_overwrites (sub : String) (m : MockRedditAPI) (k v1 v2 : String)
    (h : Reachable sub m) :
    (KVClient.Set ⟨sub⟩ m k v1).1 = .ok () ∧
    (KVClient.Set ⟨sub⟩ (KVClient.Set ⟨sub⟩ m k v1).2 k v2).1 = .ok () ∧
    ((KVClient.Set ⟨sub⟩ (KVClient.Set ⟨sub⟩ m k v1).2 k v2).2.posts.filter
      (fun e => e.2.post.Title = k ∧ e.2.post.SubredditName = sub)).length = 1 ∧
    KVClient.Get ⟨sub⟩ (KVClient.Set ⟨sub⟩ (KVClient.Set ⟨sub⟩ m k v1).2 k v2).2 k =
      .ok (some { Value := v2, Children := [] }) ∧
    (KVClient.Set ⟨sub⟩ (KVClient.Set ⟨sub⟩ NewMockRedditAPI k v1).2 k v2).2.GetPostCount
      = 1 := by
  have h1 : Reachable sub (KVClient.Set ⟨sub⟩ m k v1).2 := Reachable.set m k v1 h
  have hg := Get_after_Set (Inv_of_Reachable h1) k v2
  refine ⟨(Set_entry (Inv_of_Reachable h) k v1).1, hg.1, ?_, hg.2, ?_⟩
  · obtain ⟨ps0, -, hno, -, heq⟩ := Set_spec (Inv_of_Reachable h1) k v2
    rw [heq]
    have hf : ps0.filter (fun e => e.2.post.Title = k ∧ e.2.post.SubredditName = sub)
        = [] := by
      rw [List.filter_eq_nil_iff]
      intro e he hc
      exact hno e he (of_decide_eq_true hc).1
    simp only []
    rw [List.filter_append, hf]
    simp [newPost]
  · obtain ⟨ps0, hsub0, -, -, heq0⟩ := Set_spec (Inv_init sub) k v1
    have hps0 : ps0 = [] := List.sublist_nil.1 hsub0
    subst hps0
    have hinv1 := Inv_Set (Inv_init sub) k v1
    obtain ⟨ps1, hsub1, hno1, -, heq1⟩ := Set_spec hinv1 k v2
    rw [heq1]
    rw [heq0] at hsub1
    simp only [List.nil_append] at hsub1
    have hps1 : ps1 = [] := by
      cases ps1 with
      | nil => rfl
      | cons a t =>
        exfalso
        have ha : a ∈ [(toString (NewMockRedditAPI.idCounter + 1),
            ({ post := newPost sub (toString (NewMockRedditAPI.idCounter + 1)) k,
               comments := [newComment (toString (NewMockRedditAPI.idCounter + 2))
                ("t3_" ++ toString (NewMockRedditAPI.idCounter + 1)) v1] } : mockPost))] :=
          hsub1.subset (List.mem_cons_self _ _)
        rw [List.mem_singleton] at ha
        have := hno1 a (List.mem_cons_self _ _)
        rw [ha] at this
        exact this rfl
    subst hps1
    simp [MockRedditAPI.GetPostCount]

/-- Witness for C2 at the empty store. -/
theorem set_overwrites_witness :
    Reachable "kv" NewMockRedditAPI ∧
    ((KVClient.Set ⟨"kv"⟩ NewMockRedditAPI "mykey" "value1").1 = .ok () ∧
    (KVClient.Set ⟨"kv"⟩ (KVClient.Set ⟨"kv"⟩ NewMockRedditAPI "mykey" "value1").2
      "mykey" "value2").1 = .ok () ∧
    ((KVClient.Set ⟨"kv"⟩ (KVClient.Set ⟨"kv"⟩ NewMockRedditAPI "mykey" "value1").2
      "mykey" "value2").2.posts.filter
      (fun e => e.2.post.Title = "mykey" ∧ e.2.post.SubredditName = "kv")).length = 1 ∧
    KVClient.Get ⟨"kv"⟩
      (KVClient.Set ⟨"kv"⟩ (KVClient.Set ⟨"kv"⟩ NewMockRedditAPI "mykey" "value1").2
        "mykey" "value2").2 "mykey" =
      .ok (some { Value := "value2", Children := [] }) ∧
    (KVClient.Set ⟨"kv"⟩ (KVClient.Set ⟨"kv"⟩ NewMockRedditAPI "mykey" "value1").2
      "mykey" "value2").2.GetPostCount = 1) :=
  ⟨Reachable.init, set_overwrites "kv" NewMockRedditAPI "mykey" "value1" "value2" Reachable.init⟩

theorem mem_appendReply (m : MockRedditAPI) (pid : String) (c : Comment)
    {e : String × mockPost} (he : e ∈ m.posts) :
    (e.1, ({ post := e.2.post, comments := withReplyEach pid c e.2.comments } : mockPost)) ∈
      (m.appendReply pid c).posts :=
  List.mem_map_of_mem
    (fun e : String × mockPost =>
      (e.1, ({ post := e.2.post, comments := withReplyEach pid c e.2.comments } : mockPost)))
    he

/-- C3: from a reachable store, after `Set(k, v)` and `Append(k, s, path)` with a nil or
empty path (both succeed), `Get(k)` returns the tree with root value `v` and exactly one
child, of value `s` and without children. -/
theorem append_sibling (sub : String) (m : MockRedditAPI) (k v s : String) (p : Path)
    (h : Reachable sub m) (hp : p = none ∨ p = some []) :
    (KVClient.Set ⟨sub⟩ m k v).1 = .ok () ∧
    (KVClient.Append ⟨sub⟩ (KVClient.Set ⟨sub⟩ m k v).2 k s p).1 = .ok () ∧
    KVClient.Get ⟨sub⟩ (KVClient.Append ⟨sub⟩ (KVClient.Set ⟨sub⟩ m k v).2 k s p).2 k =
      .ok (some { Value := v, Children := [{ Value := s, Children := [] }] }) := by
  obtain ⟨hok, hinv, hmem, -, -⟩ := Set_entry (Inv_of_Reachable h) k v
  have hinv2 := Inv_Append hinv ⟨sub⟩ k s p
  have happ := Append_root_spec hinv hmem s p hp
  simp only [newPost] at happ
  rw [happ] at hinv2 ⊢
  refine ⟨hok, rfl, ?_⟩
  have := Get_of_mem hinv2 (mem_mapStore _ _ _)
  simpa [newPost, newComment, commentsToValueTree, commentToValueNode, convertEach]
    using this

/-- Witness for C3 at the empty store with the nil path. -/
theorem append_sibling_witness :
    (Reachable "kv" NewMockRedditAPI ∧ ((none : Path) = none ∨ (none : Path) = some [])) ∧
    ((KVClient.Set ⟨"kv"⟩ NewMockRedditAPI "mykey" "root").1 = .ok () ∧
    (KVClient.Append ⟨"kv"⟩ (KVClient.Set ⟨"kv"⟩ NewMockRedditAPI "mykey" "root").2
      "mykey" "sibling" none).1 = .ok () ∧
    KVClient.Get ⟨"kv"⟩
      (KVClient.Append ⟨"kv"⟩ (KVClient.Set ⟨"kv"⟩ NewMockRedditAPI "mykey" "root").2
        "mykey" "sibling" none).2 "mykey" =
      .ok (some { Value := "root", Children := [{ Value := "sibling", Children := [] }] })) :=
  ⟨⟨Reachable.init, Or.inl rfl⟩,
   append_sibling "kv" NewMockRedditAPI "mykey" "root" "sibling" none Reachable.init
     (Or.inl rfl)⟩

/-- C4: from a reachable store, after `Set(k, v)` and `Append(k, c, [0])` (both succeed),
`Get(k)` returns the tree with root value `v` and exactly one child, of value `c` and
without children.  In the raw structure the key's post holds the sole top-level reply
`r0` with text `v` after `Set`, the path `[0]` resolves to `r0`, and after `Append` the
post holds `r0` alone at the top level with the new node (text `c`, no replies, parent
`r0`) as its only reply. -/
theorem append_with_path (sub : String) (m : MockRedditAPI) (k v c : String)
    (h : Reachable sub m) :
    (KVClient.Set ⟨sub⟩ m k v).1 = .ok () ∧
    (KVClient.Append ⟨sub⟩ (KVClient.Set ⟨sub⟩ m k v).2 k c (some [0])).1 = .ok () ∧
    KVClient.Get ⟨sub⟩
      (KVClient.Append ⟨sub⟩ (KVClient.Set ⟨sub⟩ m k v).2 k c (some [0])).2 k =
      .ok (some { Value := v, Children := [{ Value := c, Children := [] }] }) ∧
    ∃ (post : Post) (r0 leaf : Comment),
      KVClient.findPostByTitle ⟨sub⟩ (KVClient.Set ⟨sub⟩ m k v).2 k = .ok (some post) ∧
      (KVClient.Set ⟨sub⟩ m k v).2.GetPost post.ID =
        .ok { Post := post, Comments := [r0] } ∧
      navigateToComment [r0] [0] = .ok r0 ∧
      KVClient.findPostByTitle ⟨sub⟩
        (KVClient.Append ⟨sub⟩ (KVClient.Set ⟨sub⟩ m k v).2 k c (some [0])).2 k =
        .ok (some post) ∧
      (KVClient.Append ⟨sub⟩ (KVClient.Set ⟨sub⟩ m k v).2 k c (some [0])).2.GetPost post.ID =
        .ok { Post := post, Comments := [{ r0 with Replies := [leaf] }] } ∧
      r0.Body = v ∧ r0.Replies = [] ∧
      leaf.Body = c ∧ leaf.Replies = [] ∧ leaf.ParentID = r0.FullID := by
  obtain ⟨hok, hinv, hmem, hreg, hcnt⟩ := Set_entry (Inv_of_Reachable h) k v
  have hinv2 := Inv_Append hinv ⟨sub⟩ k c (some [0])
  have happ := Append_path_spec hinv hmem c [0]
    (newComment (toString (m.idCounter + 2)) ("t3_" ++ toString (m.idCounter + 1)) v)
    (by simp) (by simp [navigateToComment]) rfl
    (by simpa [newComment] using toString_nat_length_pos (m.idCounter + 2))
    (by simpa [newComment] using hreg)
  simp only [newPost] at happ
  have hfind1 := findPostByTitle_of_mem hinv hmem
  have hget1 := getPost_of_mem hinv hmem
  rw [happ] at hinv2 ⊢
  have hmem2 := mem_appendReply
    ({ posts := (KVClient.Set ⟨sub⟩ m k v).2.posts
       comments := mapStore (KVClient.Set ⟨sub⟩ m k v).2.comments
         (toString ((KVClient.Set ⟨sub⟩ m k v).2.idCounter + 1))
         (newComment (toString ((KVClient.Set ⟨sub⟩ m k v).2.idCounter + 1))
           ("t1_" ++ (newComment (toString (m.idCounter + 2))
             ("t3_" ++ toString (m.idCounter + 1)) v).ID) c)
       idCounter := (KVClient.Set ⟨sub⟩ m k v).2.idCounter + 1 } : MockRedditAPI)
    (newComment (toString (m.idCounter + 2)) ("t3_" ++ toString (m.idCounter + 1)) v).ID
    (newComment (toString ((KVClient.Set ⟨sub⟩ m k v).2.idCounter + 1))
      ("t1_" ++ (newComment (toString (m.idCounter + 2))
        ("t3_" ++ toString (m.idCounter + 1)) v).ID) c) hmem
  have hget := Get_of_mem hinv2 hmem2
  have hfind2 := findPostByTitle_of_mem hinv2 hmem2
  have hget2 := getPost_of_mem hinv2 hmem2
  refine ⟨hok, rfl, ?_, newPost sub (toString (m.idCounter + 1)) k,
    newComment (toString (m.idCounter + 2)) ("t3_" ++ toString (m.idCounter + 1)) v,
    newComment (toString ((KVClient.Set ⟨sub⟩ m k v).2.idCounter + 1))
      ("t1_" ++ toString (m.idCounter + 2)) c,
    ?_, ?_, ?_, ?_, ?_, rfl, rfl, rfl, rfl, rfl⟩
  · simpa [newPost, newComment, commentsToValueTree, commentToValueNode, convertEach,
      withReplyEach, Comment.withReply] using hget
  · simpa [newPost] using hfind1
  · simpa [newPost] using hget1
  · simp [navigateToComment]
  · simpa [newPost] using hfind2
  · simpa [newPost, newComment, withReplyEach, Comment.withReply] using hget2

/-- Witness for C4 at the empty store. -/
theorem append_with_path_witness :
    Reachable "kv" NewMockRedditAPI ∧
    ((KVClient.Set ⟨"kv"⟩ NewMockRedditAPI "mykey" "root").1 = .ok () ∧
    (KVClient.Append ⟨"kv"⟩ (KVClient.Set ⟨"kv"⟩ NewMockRedditAPI "mykey" "root").2
      "mykey" "child" (some [0])).1 = .ok () ∧
    KVClient.Get ⟨"kv"⟩
      (KVClient.Append ⟨"kv"⟩ (KVClient.Set ⟨"kv"⟩ NewMockRedditAPI "mykey" "root").2
        "mykey" "child" (some [0])).2 "mykey" =
      .ok (some { Value := "root", Children := [{ Value := "child", Children := [] }] }) ∧
    ∃ (post : Post) (r0 leaf : Comment),
      KVClient.findPostByTitle ⟨"kv"⟩
        (KVClient.Set ⟨"kv"⟩ NewMockRedditAPI "mykey" "root").2 "mykey" = .ok (some post) ∧
      (KVClient.Set ⟨"kv"⟩ NewMockRedditAPI "mykey" "root").2.GetPost post.ID =
        .ok { Post := post, Comments := [r0] } ∧
      navigateToComment [r0] [0] = .ok r0 ∧
      KVClient.findPostByTitle ⟨"kv"⟩
        (KVClient.Append ⟨"kv"⟩ (KVClient.Set ⟨"kv"⟩ NewMockRedditAPI "mykey" "root").2
          "mykey" "child" (some [0])).2 "mykey" = .ok (some post) ∧
      (KVClient.Append ⟨"kv"⟩ (KVClient.Set ⟨"kv"⟩ NewMockRedditAPI "mykey" "root").2
          "mykey" "child" (some [0])).2.GetPost post.ID =
        .ok { Post := post, Comments := [{ r0 with Replies := [leaf] }] } ∧
      r0.Body = "root" ∧ r0.Replies = [] ∧
      leaf.Body = "child" ∧ leaf.Replies = [] ∧ leaf.ParentID = r0.FullID) :=
  ⟨Reachable.init,
   append_with_path "kv" NewMockRedditAPI "mykey" "root" "child" Reachable.init⟩

/-- C5: from a reachable store, after `Set(k, v)` and `Delete(k)`, `Delete` has succeeded,
`Get(k)` fails with `KeyNotFoundError` for `k`, and `Exists(k)` returns false without
error. -/
theorem delete_after_set (sub : String) (m : MockRedditAPI) (k v : String)
    (h : Reachable sub m) :
    (KVClient.Set ⟨sub⟩ m k v).1 = .ok () ∧
    (KVClient.Delete ⟨sub⟩ (KVClient.Set ⟨sub⟩ m k v).2 k).1 = .ok () ∧
    KVClient.Get ⟨sub⟩ (KVClient.Delete ⟨sub⟩ (KVClient.Set ⟨sub⟩ m k v).2 k).2 k =
      .error (.KeyNotFoundError k) ∧
    KVClient.Exists ⟨sub⟩ (KVClient.Delete ⟨sub⟩ (KVClient.Set ⟨sub⟩ m k v).2 k).2 k =
      .ok false := by
  obtain ⟨hok, hinv, hmem, -, -⟩ := Set_entry (Inv_of_Reachable h) k v
  have hdel := Delete_spec hinv hmem
  have habs := absent_after_delete hinv hmem
  simp only [newPost] at hdel habs
  rw [hdel]
  exact ⟨hok, rfl, Get_of_absent sub _ k habs, Exists_of_absent sub _ k habs⟩

/-- Witness for C5 at the empty store. -/
theorem delete_after_set_witness :
    Reachable "kv" NewMockRedditAPI ∧
    ((KVClient.Set ⟨"kv"⟩ NewMockRedditAPI "mykey" "myvalue").1 = .ok () ∧
    (KVClient.Delete ⟨"kv"⟩
      (KVClient.Set ⟨"kv"⟩ NewMockRedditAPI "mykey" "myvalue").2 "mykey").1 = .ok () ∧
    KVClient.Get ⟨"kv"⟩ (KVClient.Delete ⟨"kv"⟩
      (KVClient.Set ⟨"kv"⟩ NewMockRedditAPI "mykey" "myvalue").2 "mykey").2 "mykey" =
      .error (.KeyNotFoundError "mykey") ∧
    KVClient.Exists ⟨"kv"⟩ (KVClient.Delete ⟨"kv"⟩
      (KVClient.Set ⟨"kv"⟩ NewMockRedditAPI "mykey" "myvalue").2 "mykey").2 "mykey" =
      .ok false) :=
  ⟨Reachable.init, delete_after_set "kv" NewMockRedditAPI "mykey" "myvalue" Reachable.init⟩

/-! ## Keys after a run of `Set` calls -/

theorem SetRun_inv {sub : String} {ks : List String} {m : MockRedditAPI}
    (h : SetRun sub ks m) :
    Inv sub m ∧ ∀ x, x ∈ m.posts.map (fun e => e.2.post.Title) ↔ x ∈ ks := by
  induction h with
  | init => exact ⟨Inv_init sub, fun x => by simp [NewMockRedditAPI]⟩
  | set ks m k v _ ih =>
    refine ⟨Inv_Set ih.1 k v, ?_⟩
    obtain ⟨ps0, hsub, hno, hall, heq⟩ := Set_spec ih.1 k v
    rw [heq]
    intro x
    simp only [List.map_append, List.map_cons, List.map_nil, List.mem_append,
      List.mem_cons, List.not_mem_nil, or_false, newPost]
    constructor
    · rintro (hx | hx)
      · obtain ⟨e, he, rfl⟩ := List.mem_map.1 hx
        exact Or.inr ((ih.2 _).1 (List.mem_map_of_mem _ (hsub.subset he)))
      · exact Or.inl hx
    · rintro (hx | hx)
      · exact Or.inr hx
      · by_cases hxk : x = k
        · exact Or.inr hxk
        · left
          obtain ⟨e, he, rfl⟩ := List.mem_map.1 ((ih.2 x).2 hx)
          exact List.mem_map_of_mem _ (hall e he hxk)
  | reorder ks m ps _ hp ih =>
    refine ⟨Inv_of_perm ih.1 ps hp, fun x => ?_⟩
    rw [← ih.2 x]
    exact (hp.map _).mem_iff

theorem Keys_of_inv {sub : String} {m : MockRedditAPI} (h : Inv sub m)
    (hlen : m.posts.length ≤ 100) :
    KVClient.Keys ⟨sub⟩ m = .ok (m.posts.map (fun e => e.2.post.Title)) := by
  have hf : m.posts.filter (fun e => e.2.post.SubredditName = sub) = m.posts := by
    rw [List.filter_eq_self]
    intro e he
    simpa using (h.ids e he).2.2.1
  have hnot : ¬ ((100 : Int) > 0 ∧ ((m.posts.map (fun e => e.2.post)).length : Int) > 100) := by
    simp only [List.length_map]
    omega
  simp only [KVClient.Keys, MockRedditAPI.ListNewPosts, hf, hnot, if_false, List.map_map]
  rfl

/-- C6: after any run of `Set` calls on the empty store that uses at most 100 distinct
keys, `Keys()` succeeds with a list whose length is the number of distinct keys set and
whose members are exactly the keys set, whatever order the map is listed in. -/
theorem keys_after_sets (sub : String) (ks : List String) (m : MockRedditAPI)
    (h : SetRun sub ks m) (hk : ks.dedup.length ≤ 100) :
    ∃ out, KVClient.Keys ⟨sub⟩ m = .ok out ∧ out.length = ks.dedup.length ∧
      ∀ x, x ∈ out ↔ x ∈ ks := by
  obtain ⟨hinv, hmem⟩ := SetRun_inv h
  have hcard : (m.posts.map (fun e => e.2.post.Title)).length = ks.dedup.length := by
    rw [← List.toFinset_card_of_nodup hinv.titlesNodup, ← List.card_toFinset]
    congr 1
    ext x
    simp only [List.mem_toFinset]
    exact hmem x
  have hlen : m.posts.length ≤ 100 := by
    rw [List.length_map] at hcard
    omega
  exact ⟨_, Keys_of_inv hinv hlen, hcard, hmem⟩

/-- Witness for C6: `Set("a",_)`, `Set("b",_)`, `Set("c",_)` on the empty store. -/
theorem keys_after_sets_witness :
    (SetRun "kv" ["c", "b", "a"]
      (KVClient.Set ⟨"kv"⟩ (KVClient.Set ⟨"kv"⟩ (KVClient.Set ⟨"kv"⟩ NewMockRedditAPI
        "a" "1").2 "b" "2").2 "c" "3").2 ∧ (["c", "b", "a"] : List String).dedup.length ≤ 100) ∧
    ∃ out, KVClient.Keys ⟨"kv"⟩
      (KVClient.Set ⟨"kv"⟩ (KVClient.Set ⟨"kv"⟩ (KVClient.Set ⟨"kv"⟩ NewMockRedditAPI
        "a" "1").2 "b" "2").2 "c" "3").2 = .ok out ∧
      out.length = (["c", "b", "a"] : List String).dedup.length ∧
      ∀ x, x ∈ out ↔ x ∈ (["c", "b", "a"] : List String) :=
  ⟨⟨SetRun.set _ _ "c" "3" (SetRun.set _ _ "b" "2" (SetRun.set _ _ "a" "1" SetRun.init)),
    by decide⟩,
   keys_after_sets "kv" ["c", "b", "a"] _
    (SetRun.set _ _ "c" "3" (SetRun.set _ _ "b" "2" (SetRun.set _ _ "a" "1" SetRun.init)))
    (by decide)⟩

/-! ## Absent keys and unresolvable paths -/

/-- C7: in every store, for a key `k` that titles no post of the client's subreddit,
`Get(k)` fails with `KeyNotFoundError` for `k` (and yields no tree), and `Delete(k)` and
`Append(k, v, p)`, for every value and every path, fail with `KeyNotFoundError` for `k`
and return the store as it was. -/
theorem absent_key_not_found (sub : String) (m : MockRedditAPI) (k : String)
    (h : ∀ e ∈ m.posts, ¬ (e.2.post.SubredditName = sub ∧ e.2.post.Title = k)) :
    KVClient.Get ⟨sub⟩ m k = .error (.KeyNotFoundError k) ∧
    KVClient.Delete ⟨sub⟩ m k = (.error (.KeyNotFoundError k), m) ∧
    ∀ (v : String) (p : Path),
      KVClient.Append ⟨sub⟩ m k v p = (.error (.KeyNotFoundError k), m) := by
  refine ⟨Get_of_absent sub m k h, ?_, fun v p => ?_⟩
  · simp only [KVClient.Delete, findPostByTitle_none sub m k h]
  · simp only [KVClient.Append, findPostByTitle_none sub m k h]

/-- Witness for C7 at the empty store. -/
theorem absent_key_not_found_witness :
    (∀ e ∈ NewMockRedditAPI.posts,
      ¬ (e.2.post.SubredditName = "kv" ∧ e.2.post.Title = "nonexistent")) ∧
    (KVClient.Get ⟨"kv"⟩ NewMockRedditAPI "nonexistent" =
      .error (.KeyNotFoundError "nonexistent") ∧
    KVClient.Delete ⟨"kv"⟩ NewMockRedditAPI "nonexistent" =
      (.error (.KeyNotFoundError "nonexistent"), NewMockRedditAPI) ∧
    ∀ (v : String) (p : Path),
      KVClient.Append ⟨"kv"⟩ NewMockRedditAPI "nonexistent" v p =
        (.error (.KeyNotFoundError "nonexistent"), NewMockRedditAPI)) :=
  ⟨fun e he => (by cases he),
   absent_key_not_found "kv" NewMockRedditAPI "nonexistent" (fun e he => (by cases he))⟩

theorem navigateToComment_ok_iff (p : List Int) :
    ∀ top : List Comment,
      (∃ c, navigateToComment top p = .ok c) ↔ pathResolves top p = true := by
  induction p with
  | nil => intro top; simp [navigateToComment, pathResolves]
  | cons i rest ih =>
    intro top
    simp only [navigateToComment, pathResolves]
    by_cases h0 : top.length = 0
    · have : ¬ (i < ((top.length : Nat) : Int)) ∨ ¬ (0 ≤ i) := by omega
      rcases this with h | h <;> simp [h0, h]
    · by_cases hr : i < 0 ∨ i ≥ (top.length : Int)
      · have : ¬ (i < ((top.length : Nat) : Int)) ∨ ¬ (0 ≤ i) := by omega
        rcases this with h | h <;> simp [h0, hr, h]
      · have h1 : 0 ≤ i := by omega
        have h2 : i < (top.length : Int) := by omega
        simp only [h0, hr, if_false, h1, h2, decide_True, Bool.true_and]
        cases hget : top[i.toNat]? with
        | none =>
          exfalso
          have := List.getElem?_eq_none_iff.1 hget
          omega
        | some c =>
          by_cases hrest : rest.length = 0
          · have : rest = [] := List.length_eq_zero.1 hrest
            simp [this]
          · have hne : rest ≠ [] := fun hh => hrest (by simp [hh])
            simp only [hrest, if_false, ih c.Replies]
            simp [hne]

theorem navigateToComment_error_of_not_resolves (top : List Comment) (p : List Int)
    (h : pathResolves top p = false) : ∃ e, navigateToComment top p = .error e := by
  cases hn : navigateToComment top p with
  | error e => exact ⟨e, rfl⟩
  | ok c =>
    have := (navigateToComment_ok_iff p top).1 ⟨c, hn⟩
    rw [h] at this
    cases this

/-- C8: when the key `k` has a post whose raw replies are `pac.Comments` and the non-empty
path `l` does not resolve in them, `Append(k, v, l)` fails with `InvalidPathError` carrying
`l` and returns the store as it was (no node is created), so `Get(k)` on the returned store
is `Get(k)` on the store before. -/
theorem append_invalid_path (sub : String) (m : MockRedditAPI) (k v : String)
    (l : List Int) (post : Post) (pac : PostAndComments)
    (hfind : KVClient.findPostByTitle ⟨sub⟩ m k = .ok (some post))
    (hget : m.GetPost post.ID = .ok pac)
    (hl : l ≠ [])
    (hres : pathResolves pac.Comments l = false) :
    KVClient.Append ⟨sub⟩ m k v (some l) = (.error (.InvalidPathError (some l)), m) ∧
    (KVClient.Append ⟨sub⟩ m k v (some l)).2.GetCommentCount = m.GetCommentCount ∧
    KVClient.Get ⟨sub⟩ (KVClient.Append ⟨sub⟩ m k v (some l)).2 k = KVClient.Get ⟨sub⟩ m k := by
  obtain ⟨e, he⟩ := navigateToComment_error_of_not_resolves pac.Comments l hres
  have hcond : ¬ ((some l : Path) = none ∨ Path.len (some l) = 0) := by
    simp [Path.len, hl]
  have happ : KVClient.Append ⟨sub⟩ m k v (some l) =
      (.error (.InvalidPathError (some l)), m) := by
    simp only [KVClient.Append, hfind, hget, hcond, if_false, Path.elems, he]
  rw [happ]
  exact ⟨rfl, rfl, rfl⟩

/-- Witness for C8: path `[1]` on a key that holds a single top-level reply. -/
theorem append_invalid_path_witness :
    (KVClient.findPostByTitle ⟨"kv"⟩ (KVClient.Set ⟨"kv"⟩ NewMockRedditAPI "mykey" "root").2
        "mykey" = .ok (some (newPost "kv" "1" "mykey")) ∧
      (KVClient.Set ⟨"kv"⟩ NewMockRedditAPI "mykey" "root").2.GetPost
        (newPost "kv" "1" "mykey").ID =
        .ok { Post := newPost "kv" "1" "mykey",
              Comments := [newComment "2" "t3_1" "root"] } ∧
      ([1] : List Int) ≠ [] ∧
      pathResolves [newComment "2" "t3_1" "root"] [1] = false) ∧
    (KVClient.Append ⟨"kv"⟩ (KVClient.Set ⟨"kv"⟩ NewMockRedditAPI "mykey" "root").2
        "mykey" "x" (some [1]) =
      (.error (.InvalidPathError (some [1])),
        (KVClient.Set ⟨"kv"⟩ NewMockRedditAPI "mykey" "root").2) ∧
    (KVClient.Append ⟨"kv"⟩ (KVClient.Set ⟨"kv"⟩ NewMockRedditAPI "mykey" "root").2
        "mykey" "x" (some [1])).2.GetCommentCount =
      (KVClient.Set ⟨"kv"⟩ NewMockRedditAPI "mykey" "root").2.GetCommentCount ∧
    KVClient.Get ⟨"kv"⟩
      (KVClient.Append ⟨"kv"⟩ (KVClient.Set ⟨"kv"⟩ NewMockRedditAPI "mykey" "root").2
        "mykey" "x" (some [1])).2 "mykey" =
      KVClient.Get ⟨"kv"⟩ (KVClient.Set ⟨"kv"⟩ NewMockRedditAPI "mykey" "root").2 "mykey") :=
  ⟨⟨rfl, rfl, by decide, rfl⟩,
   append_invalid_path "kv" _ "mykey" "x" [1] (newPost "kv" "1" "mykey")
     { Post := newPost "kv" "1" "mykey", Comments := [newComment "2" "t3_1" "root"] }
     (by rfl) (by rfl) (by decide) (by rfl)⟩

/-! ## The merge rule of the tree codec -/

/-- C9: for two or more top-level replies `r0, r1, ..., rn`, `commentsToValueTree` returns
the tree whose value is the text of `r0` and whose children are the conversions of
`r1, ..., rn`, in order, followed by the conversions of the replies of `r0`, in order;
the number of children is `n` plus the number of replies of `r0`. -/
theorem merge_rule (r0 r1 : Comment) (rest : List Comment) :
    commentsToValueTree (r0 :: r1 :: rest) =
      some { Value := r0.Body
             Children := (r1 :: rest).map commentToValueNode ++
               r0.Replies.map commentToValueNode } ∧
    (commentsToValueTree (r0 :: r1 :: rest)).map (fun t => t.Children.length) =
      some ((r1 :: rest).length + r0.Replies.length) := by
  have hnil : r0.Replies.length = 0 → r0.Replies = [] := List.length_eq_zero.1
  have h : commentsToValueTree (r0 :: r1 :: rest) =
      some { Value := r0.Body
             Children := (r1 :: rest).map commentToValueNode ++
               r0.Replies.map commentToValueNode } := by
    simp only [commentsToValueTree, convertEach_eq_map]
    by_cases hr : r0.Replies.length > 0
    · simp [hr]
    · have : r0.Replies = [] := hnil (by omega)
      simp [this]
  refine ⟨h, ?_⟩
  rw [h]
  simp only [Option.map_some', List.length_append, List.length_map]

/-- C10: for a single top-level reply `r0`, `commentsToValueTree` returns the conversion of
`r0`, and the conversion has the shape of the raw node at every depth: the value of a
converted node is the text of the raw node and its children are the conversions of the
raw node's replies, one per reply and in the same order. -/
theorem single_reply_unchanged (r0 : Comment) :
    commentsToValueTree [r0] = some (commentToValueNode r0) ∧
    ∀ c : Comment,
      (commentToValueNode c).Value = c.Body ∧
      (commentToValueNode c).Children = c.Replies.map commentToValueNode ∧
      (commentToValueNode c).Children.length = c.Replies.length := by
  refine ⟨rfl, fun c => ?_⟩
  rw [commentToValueNode_eq c]
  simp

/-! ## The path resolver against the addressed node -/

theorem navigateToComment_eq_nodeAt (p : List Int) :
    ∀ (top : List Comment) (c : Comment),
      navigateToComment top p = .ok c ↔ nodeAt top p = some c := by
  induction p with
  | nil => intro top c; simp [navigateToComment, nodeAt]
  | cons i rest ih =>
    intro top c
    simp only [navigateToComment, nodeAt]
    by_cases hneg : i < 0
    · by_cases h0 : top.length = 0
      · simp [h0, hneg]
      · simp [h0, hneg]
    · by_cases h0 : top.length = 0
      · have : top = [] := List.length_eq_zero.1 h0
        subst this
        simp [hneg]
      · by_cases hge : i ≥ (top.length : Int)
        · have : top[i.toNat]? = none := List.getElem?_eq_none_iff.2 (by omega)
          simp [h0, hneg, hge, this]
        · have hr : ¬ (i < 0 ∨ i ≥ (top.length : Int)) := by omega
          have hle : ¬ ((top.length : Int) ≤ i) := by omega
          simp only [h0, hr, hneg, if_false]
          cases hget : top[i.toNat]? with
          | none => simp
          | some d =>
            by_cases hrest : rest.length = 0
            · have : rest = [] := List.length_eq_zero.1 hrest
              simp [this, hle]
            · have hne : rest ≠ [] := fun hh => hrest (by simp [hh])
              simp only [hrest, if_false]
              simp [hne, hle, ih d.Replies c]

/-- C11: `navigateToComment(top, p)` succeeds exactly when the path is non-empty and every
index lies within its level, on success it returns the node
`top[i0].replies[i1]...replies[ik]`, and in every other case (the empty path among them)
it fails. -/
theorem navigate_spec (top : List Comment) (p : List Int) :
    ((∃ c, navigateToComment top p = .ok c) ↔ pathResolves top p = true) ∧
    (∀ c, navigateToComment top p = .ok c ↔ nodeAt top p = some c) ∧
    (pathResolves top p = false → ∃ e, navigateToComment top p = .error e) ∧
    (∃ e, navigateToComment top [] = .error e) :=
  ⟨navigateToComment_ok_iff p top, navigateToComment_eq_nodeAt p top,
   navigateToComment_error_of_not_resolves top p, ⟨_, rfl⟩⟩

/-! ## Exact-title lookup over the candidates of the search -/

theorem exactMatch_eq_some (l : List Post) (key : String) (p : Post) :
    exactMatch l key = some p ↔
      ∃ pre suf, l = pre ++ p :: suf ∧ p.Title = key ∧ ∀ q ∈ pre, q.Title ≠ key := by
  induction l with
  | nil => simp [exactMatch]
  | cons a t ih =>
    simp only [exactMatch]
    by_cases ha : a.Title = key
    · simp only [ha, if_true, Option.some.injEq]
      constructor
      · rintro rfl
        exact ⟨[], t, rfl, ha, fun q hq => by cases hq⟩
      · rintro ⟨pre, suf, hl, -, hpre⟩
        cases pre with
        | nil => simp only [List.nil_append, List.cons.injEq] at hl; exact hl.1
        | cons b pre' =>
          simp only [List.cons_append, List.cons.injEq] at hl
          exact absurd ha (hl.1 ▸ hpre b (List.mem_cons_self _ _))
    · simp only [ha, if_false, ih]
      constructor
      · rintro ⟨pre, suf, hl, hp, hpre⟩
        refine ⟨a :: pre, suf, by simp [hl], hp, ?_⟩
        intro q hq
        rcases List.mem_cons.1 hq with rfl | hq
        · exact ha
        · exact hpre q hq
      · rintro ⟨pre, suf, hl, hp, hpre⟩
        cases pre with
        | nil =>
          simp only [List.nil_append, List.cons.injEq] at hl
          exact absurd (hl.1 ▸ hp) ha
        | cons b pre' =>
          simp only [List.cons_append, List.cons.injEq] at hl
          exact ⟨pre', suf, hl.2, hp, fun q hq => hpre q (List.mem_cons_of_mem _ hq)⟩

theorem exactMatch_eq_none (l : List Post) (key : String) :
    exactMatch l key = none ↔ ∀ q ∈ l, q.Title ≠ key := by
  induction l with
  | nil => simp [exactMatch]
  | cons a t ih =>
    simp only [exactMatch]
    by_cases ha : a.Title = key
    · simp [ha]
    · simp [ha, ih]

theorem find_eq_exactMatch (l : List Post) (key : String) :
    l.find? (fun p => p.Title = key) = exactMatch l key := by
  induction l with
  | nil => rfl
  | cons a t ih =>
    by_cases ha : a.Title = key
    · simp [exactMatch, List.find?, ha]
    · simp [exactMatch, List.find?, ha, ih]

/-- C13: over any list of candidates, the lookup loop returns the first candidate, in list
order, whose title equals the key, and returns nil exactly when no candidate has that
title; `findPostByTitle` is this loop over the result of the search, without error when
the search has none, and `Exists` is true exactly when the loop finds a candidate. -/
theorem exact_title_lookup :
    (∀ (l : List Post) (key : String) (p : Post),
      exactMatch l key = some p ↔
        ∃ pre suf, l = pre ++ p :: suf ∧ p.Title = key ∧ ∀ q ∈ pre, q.Title ≠ key) ∧
    (∀ (l : List Post) (key : String),
      exactMatch l key = none ↔ ∀ q ∈ l, q.Title ≠ key) ∧
    (∀ (c : KVClient) (m : MockRedditAPI) (key : String),
      c.findPostByTitle m key =
        (m.SearchPosts c.subreddit key).map (fun l => exactMatch l key)) ∧
    (∀ (c : KVClient) (m : MockRedditAPI) (key : String),
      c.Exists m key =
        (m.SearchPosts c.subreddit key).map
          (fun l => decide (∃ q ∈ l, q.Title = key))) := by
  refine ⟨exactMatch_eq_some, exactMatch_eq_none, ?_, ?_⟩
  · intro c m key
    simp only [KVClient.findPostByTitle, MockRedditAPI.SearchPosts, find_eq_exactMatch]
    rfl
  · intro c m key
    simp only [KVClient.Exists, KVClient.findPostByTitle, MockRedditAPI.SearchPosts,
      find_eq_exactMatch, Except.map]
    congr 1
    cases h : exactMatch ((m.posts.filter
      (fun e => e.2.post.SubredditName = c.subreddit ∧ e.2.post.Title = key)).map
      (fun e => e.2.post)) key with
    | none =>
      have := (exactMatch_eq_none _ _).1 h
      simp only [Option.isSome_none]
      symm
      rw [decide_eq_false_iff_not]
      rintro ⟨q, hq, hqt⟩
      exact this q hq hqt
    | some p =>
      obtain ⟨pre, suf, hl, hp, -⟩ := (exactMatch_eq_some _ _ _).1 h
      simp only [Option.isSome_some]
      symm
      rw [decide_eq_true_iff]
      exact ⟨p, by rw [hl]; simp, hp⟩

/-! ## A root without replies -/

/-- C12, counterexample: on the store that holds one post titled `k` and no comment, the
lookup finds the post, the post has no replies, and `Exists(k)` returns true, not false. -/
theorem zero_reply_root_exists_counterexample :
    KVClient.findPostByTitle ⟨"kv"⟩ (NewMockRedditAPI.SubmitPost "kv" "k" "").2 "k" =
      .ok (some (newPost "kv" "1" "k")) ∧
    (NewMockRedditAPI.SubmitPost "kv" "k" "").2.GetPost (newPost "kv" "1" "k").ID =
      .ok { Post := newPost "kv" "1" "k", Comments := [] } ∧
    KVClient.Exists ⟨"kv"⟩ (NewMockRedditAPI.SubmitPost "kv" "k" "").2 "k" = .ok true ∧
    KVClient.Exists ⟨"kv"⟩ (NewMockRedditAPI.SubmitPost "kv" "k" "").2 "k" ≠ .ok false :=
  ⟨rfl, rfl, rfl,
   fun h => Bool.noConfusion
     (Except.ok.inj (h : (Except.ok true : Except Error Bool) = Except.ok false))⟩

/-- C12, amended: when the lookup of `k` finds a post that has no top-level reply,
`Get(k)` fails with `KeyNotFoundError` for `k`, as it does on every store without a post
titled `k`, while `Exists(k)` returns true, which it does not on a store without such a
post. -/
theorem zero_reply_root (sub : String) (m : MockRedditAPI) (k : String) (post : Post)
    (pac : PostAndComments)
    (hfind : KVClient.findPostByTitle ⟨sub⟩ m k = .ok (some post))
    (hget : m.GetPost post.ID = .ok pac)
    (hnil : pac.Comments = []) :
    KVClient.Get ⟨sub⟩ m k = .error (.KeyNotFoundError k) ∧
    KVClient.Exists ⟨sub⟩ m k = .ok true ∧
    ∀ m' : MockRedditAPI,
      (∀ e ∈ m'.posts, ¬ (e.2.post.SubredditName = sub ∧ e.2.post.Title = k)) →
      KVClient.Get ⟨sub⟩ m' k = KVClient.Get ⟨sub⟩ m k ∧
      KVClient.Exists ⟨sub⟩ m' k = .ok false := by
  have hg : KVClient.Get ⟨sub⟩ m k = .error (.KeyNotFoundError k) := by
    simp only [KVClient.Get, hfind, hget, hnil, List.length_nil, if_true]
  refine ⟨hg, ?_, fun m' h' => ?_⟩
  · simp [KVClient.Exists, hfind]
  · rw [hg]
    exact ⟨Get_of_absent sub m' k h', Exists_of_absent sub m' k h'⟩

/-- Witness for C12 (amended): the store that holds one post titled `k` and no comment. -/
theorem zero_reply_root_witness :
    (KVClient.findPostByTitle ⟨"kv"⟩ (NewMockRedditAPI.SubmitPost "kv" "k" "").2 "k" =
        .ok (some (newPost "kv" "1" "k")) ∧
      (NewMockRedditAPI.SubmitPost "kv" "k" "").2.GetPost (newPost "kv" "1" "k").ID =
        .ok { Post := newPost "kv" "1" "k", Comments := [] } ∧
      ({ Post := newPost "kv" "1" "k", Comments := [] } : PostAndComments).Comments = []) ∧
    (KVClient.Get ⟨"kv"⟩ (NewMockRedditAPI.SubmitPost "kv" "k" "").2 "k" =
        .error (.KeyNotFoundError "k") ∧
      KVClient.Exists ⟨"kv"⟩ (NewMockRedditAPI.SubmitPost "kv" "k" "").2 "k" = .ok true ∧
      ∀ m' : MockRedditAPI,
        (∀ e ∈ m'.posts, ¬ (e.2.post.SubredditName = "kv" ∧ e.2.post.Title = "k")) →
        KVClient.Get ⟨"kv"⟩ m' "k" =
          KVClient.Get ⟨"kv"⟩ (NewMockRedditAPI.SubmitPost "kv" "k" "").2 "k" ∧
        KVClient.Exists ⟨"kv"⟩ m' "k" = .ok false) :=
  ⟨⟨rfl, rfl, rfl⟩,
   zero_reply_root "kv" _ "k" (newPost "kv" "1" "k")
     { Post := newPost "kv" "1" "k", Comments := [] } rfl rfl rfl⟩

/-! ## Nested nodes are not merged -/

/-- C15, counterexample: after `Set(k, "root")`, `Append(k, "child1", [0])` and
`Append(k, "child2", [0])`, `Get(k)` returns `root` over the two separate children
`child1` and `child2`, not `root` over the single child `child1` holding `child2`. -/
theorem nested_merge_counterexample :
    KVClient.Get ⟨"kv"⟩
      (KVClient.Append ⟨"kv"⟩
        (KVClient.Append ⟨"kv"⟩ (KVClient.Set ⟨"kv"⟩ NewMockRedditAPI "config" "root").2
          "config" "child1" (some [0])).2
        "config" "child2" (some [0])).2 "config" =
      .ok (some { Value := "root",
                  Children := [{ Value := "child1", Children := [] },
                               { Value := "child2", Children := [] }] }) ∧
    KVClient.Get ⟨"kv"⟩
      (KVClient.Append ⟨"kv"⟩
        (KVClient.Append ⟨"kv"⟩ (KVClient.Set ⟨"kv"⟩ NewMockRedditAPI "config" "root").2
          "config" "child1" (some [0])).2
        "config" "child2" (some [0])).2 "config" ≠
      .ok (some { Value := "root",
                  Children := [{ Value := "child1",
                                 Children := [{ Value := "child2", Children := [] }] }] }) := by
  have h1 : KVClient.Get ⟨"kv"⟩
      (KVClient.Append ⟨"kv"⟩
        (KVClient.Append ⟨"kv"⟩ (KVClient.Set ⟨"kv"⟩ NewMockRedditAPI "config" "root").2
          "config" "child1" (some [0])).2
        "config" "child2" (some [0])).2 "config" =
      .ok (some { Value := "root",
                  Children := [{ Value := "child1", Children := [] },
                               { Value := "child2", Children := [] }] }) := rfl
  refine ⟨h1, ?_⟩
  rw [h1]
  intro h
  simp at h

/-- C15, amended: the merge is applied to the top-level replies only.  A node with the
replies `q0, q1, ..., qm` converts to its own text over `m + 1` separate children, the
conversions of `q0, ..., qm` in order, at every depth; so a sole top-level reply with
several replies is returned with all of them as its children. -/
theorem nested_replies_listed (id fullID body parentID : String) (q0 q1 : Comment)
    (rest : List Comment) :
    commentToValueNode ⟨id, fullID, body, parentID, q0 :: q1 :: rest⟩ =
      { Value := body
        Children := commentToValueNode q0 :: commentToValueNode q1 ::
          rest.map commentToValueNode } ∧
    (commentToValueNode ⟨id, fullID, body, parentID, q0 :: q1 :: rest⟩).Children.length =
      rest.length + 2 ∧
    commentsToValueTree [⟨id, fullID, body, parentID, q0 :: q1 :: rest⟩] =
      some { Value := body
             Children := commentToValueNode q0 :: commentToValueNode q1 ::
               rest.map commentToValueNode } := by
  have h : commentToValueNode ⟨id, fullID, body, parentID, q0 :: q1 :: rest⟩ =
      { Value := body
        Children := commentToValueNode q0 :: commentToValueNode q1 ::
          rest.map commentToValueNode } := by
    rw [commentToValueNode_eq]
    simp
  refine ⟨h, ?_, ?_⟩
  · rw [h]; simp
  · simp only [commentsToValueTree, h]

/-! ## Deleting a post in the mock -/

theorem mapDelete_length {α : Type} (m : List (String × α)) (k : String) (v : α)
    (hnd : (m.map (fun e => e.1)).Nodup) (hl : mapLookup m k = some v) :
    (mapDelete m k).length + 1 = m.length := by
  induction m with
  | nil => simp [mapLookup] at hl
  | cons a t ih =>
    simp only [List.map_cons, List.nodup_cons] at hnd
    simp only [mapLookup] at hl
    by_cases hk : a.1 = k
    · have hfil : List.filter (fun e : String × α => decide (e.1 ≠ k)) t = t := by
        rw [List.filter_eq_self]
        intro e he
        have : e.1 ≠ k := by
          intro hEq
          exact hnd.1 (hk ▸ hEq ▸ List.mem_map_of_mem (fun e => e.1) he)
        simpa using this
      simp only [mapDelete]
      rw [List.filter_cons_of_neg (by simp [hk]), hfil]
      rfl
    · simp only [hk, if_false] at hl
      have := ih hnd.2 hl
      simp only [mapDelete] at this ⊢
      rw [List.filter_cons_of_pos (by simp [hk])]
      simp only [List.length_cons]
      omega

theorem mapLookup_mapDelete {α : Type} (m : List (String × α)) (k : String) :
    mapLookup (mapDelete m k) k = none :=
  mapLookup_eq_none _ _ (fun e he => by simpa [mapDelete] using (List.mem_filter.1 he).2)

/-- C16, counterexample: after `Set("k", "v")` the post `1` has the one comment `2`
beneath it; `DeletePost("1")` succeeds, and afterwards `comments` still holds comment `2`
and `GetCommentCount` is still 1, not 1 less the one descendant. -/
theorem delete_cascade_counterexample :
    (KVClient.Set ⟨"kv"⟩ NewMockRedditAPI "k" "v").2.GetPost "1" =
      .ok { Post := newPost "kv" "1" "k", Comments := [newComment "2" "t3_1" "v"] } ∧
    countEach [newComment "2" "t3_1" "v"] = 1 ∧
    (KVClient.Set ⟨"kv"⟩ NewMockRedditAPI "k" "v").2.GetCommentCount = 1 ∧
    ((KVClient.Set ⟨"kv"⟩ NewMockRedditAPI "k" "v").2.DeletePost "1").1 = .ok () ∧
    (mapLookup ((KVClient.Set ⟨"kv"⟩ NewMockRedditAPI "k" "v").2.DeletePost "1").2.comments
      "2").isSome = true ∧
    ((KVClient.Set ⟨"kv"⟩ NewMockRedditAPI "k" "v").2.DeletePost "1").2.GetCommentCount = 1 ∧
    ((KVClient.Set ⟨"kv"⟩ NewMockRedditAPI "k" "v").2.DeletePost "1").2.GetCommentCount ≠
      (KVClient.Set ⟨"kv"⟩ NewMockRedditAPI "k" "v").2.GetCommentCount -
        countEach [newComment "2" "t3_1" "v"] :=
  ⟨rfl, rfl, rfl, rfl, rfl, rfl, by decide⟩

/-- C16, amended: `DeletePost` of an existing post succeeds and removes its entry from
`posts` (the post and its replies cannot be fetched any more, and `GetPostCount` drops by
one); `comments` is left as it was, so `GetCommentCount` does not change.  `DeletePost` of
a post that does not exist fails and changes nothing. -/
theorem delete_post_effect (m : MockRedditAPI) (postID : String)
    (hnd : (m.posts.map (fun e => e.1)).Nodup) :
    (∀ mp, mapLookup m.posts postID = some mp →
      (m.DeletePost postID).1 = .ok () ∧
      mapLookup (m.DeletePost postID).2.posts postID = none ∧
      (m.DeletePost postID).2.GetPost postID =
        .error (.Errorf ("post not found: " ++ postID)) ∧
      (m.DeletePost postID).2.GetPostCount + 1 = m.GetPostCount ∧
      (∀ e ∈ m.posts, e.1 ≠ postID → e ∈ (m.DeletePost postID).2.posts) ∧
      (m.DeletePost postID).2.comments = m.comments ∧
      (m.DeletePost postID).2.GetCommentCount = m.GetCommentCount) ∧
    (mapLookup m.posts postID = none →
      m.DeletePost postID = (.error (.Errorf ("post not found: " ++ postID)), m)) := by
  constructor
  · intro mp hl
    have hd : m.DeletePost postID = (.ok (), { m with posts := mapDelete m.posts postID }) := by
      simp [MockRedditAPI.DeletePost, hl]
    rw [hd]
    refine ⟨rfl, mapLookup_mapDelete _ _, ?_, ?_, ?_, rfl, rfl⟩
    · simp [MockRedditAPI.GetPost, mapLookup_mapDelete]
    · exact mapDelete_length m.posts postID mp hnd hl
    · intro e he hne
      exact List.mem_filter.2 ⟨he, by simpa using hne⟩
  · intro hl
    simp [MockRedditAPI.DeletePost, hl]

/-- Witness for C16 (amended): the store after `Set("k", "v")`, whose only key is `1`. -/
theorem delete_post_effect_witness :
    ((KVClient.Set ⟨"kv"⟩ NewMockRedditAPI "k" "v").2.posts.map (fun e => e.1)).Nodup ∧
    ((∀ mp, mapLookup (KVClient.Set ⟨"kv"⟩ NewMockRedditAPI "k" "v").2.posts "1" = some mp →
      ((KVClient.Set ⟨"kv"⟩ NewMockRedditAPI "k" "v").2.DeletePost "1").1 = .ok () ∧
      mapLookup ((KVClient.Set ⟨"kv"⟩ NewMockRedditAPI "k" "v").2.DeletePost "1").2.posts "1"
        = none ∧
      ((KVClient.Set ⟨"kv"⟩ NewMockRedditAPI "k" "v").2.DeletePost "1").2.GetPost "1" =
        .error (.Errorf ("post not found: " ++ "1")) ∧
      ((KVClient.Set ⟨"kv"⟩ NewMockRedditAPI "k" "v").2.DeletePost "1").2.GetPostCount + 1 =
        (KVClient.Set ⟨"kv"⟩ NewMockRedditAPI "k" "v").2.GetPostCount ∧
      (∀ e ∈ (KVClient.Set ⟨"kv"⟩ NewMockRedditAPI "k" "v").2.posts, e.1 ≠ "1" →
        e ∈ ((KVClient.Set ⟨"kv"⟩ NewMockRedditAPI "k" "v").2.DeletePost "1").2.posts) ∧
      ((KVClient.Set ⟨"kv"⟩ NewMockRedditAPI "k" "v").2.DeletePost "1").2.comments =
        (KVClient.Set ⟨"kv"⟩ NewMockRedditAPI "k" "v").2.comments ∧
      ((KVClient.Set ⟨"kv"⟩ NewMockRedditAPI "k" "v").2.DeletePost "1").2.GetCommentCount =
        (KVClient.Set ⟨"kv"⟩ NewMockRedditAPI "k" "v").2.GetCommentCount) ∧
    (mapLookup (KVClient.Set ⟨"kv"⟩ NewMockRedditAPI "k" "v").2.posts "1" = none →
      (KVClient.Set ⟨"kv"⟩ NewMockRedditAPI "k" "v").2.DeletePost "1" =
        (.error (.Errorf ("post not found: " ++ "1")),
          (KVClient.Set ⟨"kv"⟩ NewMockRedditAPI "k" "v").2))) :=
  ⟨(Inv_Set (Inv_init "kv") "k" "v").keysNodup,
   delete_post_effect (KVClient.Set ⟨"kv"⟩ NewMockRedditAPI "k" "v").2 "1"
     (Inv_Set (Inv_init "kv") "k" "v").keysNodup⟩

/-! ## Identifiers in comment trees -/

theorem Comment.refs_eq (c : Comment) :
    Comment.refs c = (c.ID, c.FullID) :: refsEach c.Replies := by
  cases c; simp [Comment.refs]

theorem refsEach_append (a b : List Comment) :
    refsEach (a ++ b) = refsEach a ++ refsEach b := by
  induction a with
  | nil => simp [refsEach]
  | cons x t ih => simp [refsEach, ih]

theorem Comment.withReply_eq (pid : String) (leaf c : Comment) :
    Comment.withReply pid leaf c =
      { c with Replies :=
          if c.ID = pid then withReplyEach pid leaf c.Replies ++ [leaf]
          else withReplyEach pid leaf c.Replies } := by
  cases c; simp [Comment.withReply]

mutual
theorem Comment.withReply_of_not_mem (pid : String) (leaf : Comment) :
    ∀ c : Comment, pid ∉ (Comment.refs c).map (fun r => r.1) →
      Comment.withReply pid leaf c = c
  | ⟨id, fullID, body, parentID, replies⟩ => by
    intro h
    simp only [Comment.refs, List.map_cons, List.mem_cons, not_or] at h
    have hne : ¬ id = pid := fun hh => h.1 hh.symm
    simp only [Comment.withReply, hne, if_false]
    rw [withReplyEach_of_not_mem pid leaf replies h.2]
theorem withReplyEach_of_not_mem (pid : String) (leaf : Comment) :
    ∀ l : List Comment, pid ∉ (refsEach l).map (fun r => r.1) →
      withReplyEach pid leaf l = l
  | [] => by intro _; simp [withReplyEach]
  | r :: rs => by
    intro h
    simp only [refsEach, List.map_append, List.mem_append, not_or] at h
    simp only [withReplyEach]
    rw [Comment.withReply_of_not_mem pid leaf r h.1, withReplyEach_of_not_mem pid leaf rs h.2]
end



theorem refs_sublist_of_getElem? :
    ∀ (T : List Comment) (n : Nat) (c : Comment), T[n]? = some c →
      (Comment.refs c).Sublist (refsEach T)
  | [], n, c, h => by simp at h
  | a :: t, 0, c, h => by
    simp only [List.getElem?_cons_zero, Option.some.injEq] at h
    subst h
    simp only [refsEach]
    exact List.sublist_append_left _ _
  | a :: t, n + 1, c, h => by
    simp only [List.getElem?_cons_succ] at h
    simp only [refsEach]
    exact (refs_sublist_of_getElem? t n c h).trans (List.sublist_append_right _ _)

theorem withReplyEach_at (pid : String) (leaf : Comment) :
    ∀ (T : List Comment) (n : Nat) (c : Comment), T[n]? = some c →
      ((refsEach T).map (fun r => r.1)).Nodup →
      pid ∈ (Comment.refs c).map (fun r => r.1) →
      withReplyEach pid leaf T = T.set n (Comment.withReply pid leaf c)
  | [], n, c, h, _, _ => by simp at h
  | a :: t, 0, c, h, hnd, hmem => by
    simp only [List.getElem?_cons_zero, Option.some.injEq] at h
    subst h
    simp only [refsEach, List.map_append] at hnd
    have hdis := List.disjoint_of_nodup_append hnd
    have : pid ∉ (refsEach t).map (fun r => r.1) := fun hh => hdis hmem hh
    simp only [withReplyEach, List.set_cons_zero, withReplyEach_of_not_mem pid leaf t this]
  | a :: t, n + 1, c, h, hnd, hmem => by
    simp only [List.getElem?_cons_succ] at h
    simp only [refsEach, List.map_append] at hnd
    have hdis := List.disjoint_of_nodup_append hnd
    have hsub := (refs_sublist_of_getElem? t n c h).map (fun r => r.1)
    have hin : pid ∈ (refsEach t).map (fun r => r.1) := hsub.subset hmem
    have : pid ∉ (Comment.refs a).map (fun r => r.1) := fun hh => hdis hh hin
    simp only [withReplyEach, List.set_cons_succ,
      Comment.withReply_of_not_mem pid leaf a this,
      withReplyEach_at pid leaf t n c h (List.Nodup.of_append_right hnd) hmem]

theorem navigate_cons (T : List Comment) (i : Int) (rest : List Int) (t : Comment)
    (h : navigateToComment T (i :: rest) = .ok t) :
    ¬ i < 0 ∧ ∃ c, T[i.toNat]? = some c ∧
      ((rest = [] ∧ t = c) ∨ (rest ≠ [] ∧ navigateToComment c.Replies rest = .ok t)) := by
  simp only [navigateToComment] at h
  split at h
  · cases h
  · split at h
    · cases h
    · rename_i hr
      refine ⟨fun hh => hr (Or.inl hh), ?_⟩
      split at h
      · cases h
      · rename_i c hc
        refine ⟨c, hc, ?_⟩
        split at h
        · rename_i hl
          left
          exact ⟨List.length_eq_zero.1 hl, (Except.ok.inj h).symm⟩
        · rename_i hl
          right
          exact ⟨fun hh => hl (by simp [hh]), h⟩

theorem navigate_mem_refs (p : List Int) :
    ∀ (T : List Comment) (t : Comment), navigateToComment T p = .ok t →
      (t.ID, t.FullID) ∈ refsEach T := by
  induction p with
  | nil => intro T t h; simp [navigateToComment] at h
  | cons i rest ih =>
    intro T t h
    obtain ⟨-, c, hc, hcase⟩ := navigate_cons T i rest t h
    apply (refs_sublist_of_getElem? T _ c hc).subset
    rw [Comment.refs_eq]
    rcases hcase with ⟨-, rfl⟩ | ⟨-, hnav⟩
    · exact List.mem_cons_self _ _
    · exact List.mem_cons_of_mem _ (ih c.Replies t hnav)

/-- With pairwise distinct ids, appending to the replies of the object the path resolves
to changes the raw structure at the addressed node and nowhere else. -/
theorem withReplyEach_eq_insertAt (leaf : Comment) (p : List Int) :
    ∀ (T : List Comment) (t : Comment), navigateToComment T p = .ok t →
      ((refsEach T).map (fun r => r.1)).Nodup →
      withReplyEach t.ID leaf T = insertAt T p leaf := by
  induction p with
  | nil => intro T t h; simp [navigateToComment] at h
  | cons i rest ih =>
    intro T t h hnd
    obtain ⟨hneg, c, hc, hcase⟩ := navigate_cons T i rest t h
    have hsub := refs_sublist_of_getElem? T _ c hc
    have hndc : ((Comment.refs c).map (fun r => r.1)).Nodup := hnd.sublist (hsub.map _)
    rw [Comment.refs_eq] at hndc
    simp only [List.map_cons, List.nodup_cons] at hndc
    have hmem0 : (t.ID, t.FullID) ∈ Comment.refs c := by
      rw [Comment.refs_eq]
      rcases hcase with ⟨-, rfl⟩ | ⟨-, hnav⟩
      · exact List.mem_cons_self _ _
      · exact List.mem_cons_of_mem _ (navigate_mem_refs rest c.Replies t hnav)
    have hmem : t.ID ∈ (Comment.refs c).map (fun r => r.1) :=
      List.mem_map_of_mem (fun r : String × String => r.1) hmem0
    rw [withReplyEach_at t.ID leaf T _ c hc hnd hmem]
    simp only [insertAt, hneg, if_false, hc]
    congr 1
    rw [Comment.withReply_eq]
    rcases hcase with ⟨hrest, rfl⟩ | ⟨hrest, hnav⟩
    · subst hrest
      simp only [if_true, insertAt]
      rw [withReplyEach_of_not_mem t.ID leaf t.Replies hndc.1]
    · have hin : t.ID ∈ (refsEach c.Replies).map (fun r => r.1) :=
        List.mem_map_of_mem (fun r => r.1) (navigate_mem_refs rest c.Replies t hnav)
      have hne : ¬ c.ID = t.ID := fun hh => hndc.1 (hh ▸ hin)
      simp only [hne, if_false]
      rw [ih c.Replies t hnav hndc.2]

theorem refsEach_set_perm (x : String × String) (c' : Comment) :
    ∀ (T : List Comment) (n : Nat) (c : Comment), T[n]? = some c →
      (Comment.refs c').Perm (x :: Comment.refs c) →
      (refsEach (T.set n c')).Perm (x :: refsEach T)
  | [], n, c, h, _ => by simp at h
  | a :: t, 0, c, h, hp => by
    simp only [List.getElem?_cons_zero, Option.some.injEq] at h
    subst h
    simp only [List.set_cons_zero, refsEach]
    exact (hp.append_right _)
  | a :: t, n + 1, c, h, hp => by
    simp only [List.getElem?_cons_succ] at h
    simp only [List.set_cons_succ, refsEach]
    have := refsEach_set_perm x c' t n c h hp
    exact (this.append_left _).trans List.perm_middle

theorem pathResolves_cons (T : List Comment) (i : Int) (rest : List Int)
    (h : pathResolves T (i :: rest) = true) :
    ¬ i < 0 ∧ ∃ c, T[i.toNat]? = some c ∧
      (rest = [] ∨ pathResolves c.Replies rest = true) := by
  simp only [pathResolves, Bool.and_eq_true, decide_eq_true_eq, Bool.or_eq_true] at h
  obtain ⟨⟨h0, hlt⟩, hrest⟩ := h
  refine ⟨by omega, ?_⟩
  cases hget : T[i.toNat]? with
  | none =>
    have := List.getElem?_eq_none_iff.1 hget
    omega
  | some c =>
    refine ⟨c, rfl, ?_⟩
    rcases hrest with hr | hr
    · left; simpa using hr
    · right; simpa [hget] using hr

theorem refsEach_insertAt_perm (leaf : Comment) (hleaf : leaf.Replies = []) (p : List Int) :
    ∀ T : List Comment, (p = [] ∨ pathResolves T p = true) →
      (refsEach (insertAt T p leaf)).Perm ((leaf.ID, leaf.FullID) :: refsEach T) := by
  have hl : Comment.refs leaf = [(leaf.ID, leaf.FullID)] := by
    rw [Comment.refs_eq, hleaf]; rfl
  induction p with
  | nil =>
    intro T _
    simp only [insertAt, refsEach_append, refsEach, hl, List.append_nil]
    exact List.perm_append_singleton _ _
  | cons i rest ih =>
    intro T h
    have hres : pathResolves T (i :: rest) = true := by
      rcases h with h | h
      · cases h
      · exact h
    obtain ⟨hneg, c, hc, hcase⟩ := pathResolves_cons T i rest hres
    simp only [insertAt, hneg, if_false, hc]
    apply refsEach_set_perm _ _ T _ c hc
    rw [Comment.refs_eq, Comment.refs_eq c]
    simp only []
    exact ((ih c.Replies hcase).cons _).trans (List.Perm.swap _ _ _)

theorem insertAt_ne_nil (leaf : Comment) (p : List Int) (T : List Comment) (h : T ≠ []) :
    insertAt T p leaf ≠ [] := by
  cases p with
  | nil => simp [insertAt]
  | cons i rest =>
    simp only [insertAt]
    split
    · exact h
    · split
      · exact h
      · intro hh
        have := congrArg List.length hh
        simp only [List.length_set, List.length_nil] at this
        exact h (List.length_eq_zero.1 this)

/-! ## Identifiers across the posts of a store -/

theorem postRefs_append (a b : List (String × mockPost)) :
    postRefs (a ++ b) = postRefs a ++ postRefs b := by
  induction a with
  | nil => simp [postRefs]
  | cons x t ih => simp [postRefs, ih]

theorem postRefs_sublist {ps qs : List (String × mockPost)} (h : ps.Sublist qs) :
    (postRefs ps).Sublist (postRefs qs) := by
  induction h with
  | slnil => exact List.Sublist.refl _
  | cons a _ ih =>
    simp only [postRefs]
    exact ih.trans (List.sublist_append_right _ _)
  | cons₂ a _ ih =>
    simp only [postRefs]
    exact List.Sublist.append (List.Sublist.refl _) ih

theorem postRefs_perm {ps qs : List (String × mockPost)} (h : ps.Perm qs) :
    (postRefs ps).Perm (postRefs qs) := by
  induction h with
  | nil => exact List.Perm.refl _
  | cons a _ ih =>
    simp only [postRefs]
    exact ih.append_left _
  | swap a b l =>
    simp only [postRefs, ← List.append_assoc]
    exact List.Perm.append_right _ List.perm_append_comm
  | trans _ _ ih1 ih2 => exact ih1.trans ih2

theorem refs_sublist_postRefs {ps : List (String × mockPost)} {e : String × mockPost}
    (he : e ∈ ps) : (refsEach e.2.comments).Sublist (postRefs ps) := by
  induction ps with
  | nil => cases he
  | cons a t ih =>
    simp only [postRefs]
    rcases List.mem_cons.1 he with h | h
    · subst h
      exact List.sublist_append_left _ _
    · exact (ih h).trans (List.sublist_append_right _ _)

theorem postRefs_disjoint {ps : List (String × mockPost)}
    (hnd : ((postRefs ps).map (fun r => r.1)).Nodup) {e e' : String × mockPost}
    (he : e ∈ ps) (he' : e' ∈ ps) (hne : e ≠ e') {x : String}
    (hx : x ∈ (refsEach e.2.comments).map (fun r => r.1)) :
    x ∉ (refsEach e'.2.comments).map (fun r => r.1) := by
  induction ps with
  | nil => cases he
  | cons a t ih =>
    simp only [postRefs, List.map_append] at hnd
    have hdis := List.disjoint_of_nodup_append hnd
    intro hx'
    rcases List.mem_cons.1 he with h | h <;> rcases List.mem_cons.1 he' with h' | h'
    · exact hne (h.trans h'.symm)
    · subst h
      exact hdis hx (((refs_sublist_postRefs h').map _).subset hx')
    · subst h'
      exact hdis hx' (((refs_sublist_postRefs h).map _).subset hx)
    · exact ih (List.Nodup.of_append_right hnd) h h' hx'

theorem entry_eq_of_key {ps : List (String × mockPost)}
    (hnd : (ps.map (fun e => e.1)).Nodup) {e e' : String × mockPost}
    (he : e ∈ ps) (he' : e' ∈ ps) (hk : e'.1 = e.1) : e' = e := by
  have h1 := mapLookup_of_mem ps hnd e he
  have h2 := mapLookup_of_mem ps hnd e' he'
  rw [hk, h1] at h2
  exact Prod.ext hk (Option.some.inj h2).symm

theorem setComments_cons (a : String × mockPost) (t : List (String × mockPost))
    (key : String) (cs : List Comment) :
    setComments (a :: t) key cs =
      (if a.1 = key then (a.1, ({ a.2 with comments := cs } : mockPost)) else a) ::
        setComments t key cs := rfl

theorem setComments_of_not_mem (t : List (String × mockPost)) (key : String)
    (cs : List Comment) (h : ∀ x ∈ t, x.1 ≠ key) : setComments t key cs = t := by
  induction t with
  | nil => rfl
  | cons a t ih =>
    rw [setComments_cons, if_neg (h a (List.mem_cons_self _ _)),
      ih (fun x hx => h x (List.mem_cons_of_mem _ hx))]

theorem mapStore_eq_setComments {ps : List (String × mockPost)}
    (hnd : (ps.map (fun e => e.1)).Nodup) {e : String × mockPost} (he : e ∈ ps)
    (cs : List Comment) :
    mapStore ps e.1 { e.2 with comments := cs } = setComments ps e.1 cs := by
  induction ps with
  | nil => cases he
  | cons a t ih =>
    simp only [List.map_cons, List.nodup_cons] at hnd
    rcases List.mem_cons.1 he with h | h
    · subst h
      have hrest : setComments t e.1 cs = t :=
        setComments_of_not_mem t e.1 cs
          (fun y hy hh => hnd.1 (hh ▸ List.mem_map_of_mem (fun e => e.1) hy))
      rw [setComments_cons, hrest, if_pos rfl]
      simp [mapStore]
    · have hne : ¬ a.1 = e.1 := fun hh => hnd.1 (hh ▸ List.mem_map_of_mem (fun e => e.1) h)
      rw [setComments_cons, if_neg hne, ← ih hnd.2 h]
      simp [mapStore, hne]

theorem postRefs_setComments_perm {ps : List (String × mockPost)}
    (hnd : (ps.map (fun e => e.1)).Nodup) {e : String × mockPost} (he : e ∈ ps)
    (cs : List Comment) (x : String × String)
    (hp : (refsEach cs).Perm (x :: refsEach e.2.comments)) :
    (postRefs (setComments ps e.1 cs)).Perm (x :: postRefs ps) := by
  induction ps with
  | nil => cases he
  | cons a t ih =>
    simp only [List.map_cons, List.nodup_cons] at hnd
    rcases List.mem_cons.1 he with h | h
    · subst h
      have hrest : setComments t e.1 cs = t :=
        setComments_of_not_mem t e.1 cs
          (fun y hy hh => hnd.1 (hh ▸ List.mem_map_of_mem (fun e => e.1) hy))
      rw [setComments_cons, hrest, if_pos rfl]
      simp only [postRefs]
      exact hp.append_right _
    · have hne : ¬ a.1 = e.1 := fun hh => hnd.1 (hh ▸ List.mem_map_of_mem (fun e => e.1) h)
      rw [setComments_cons, if_neg hne]
      simp only [postRefs]
      exact ((ih hnd.2 h).append_left _).trans List.perm_middle

theorem mem_setComments_self {ps : List (String × mockPost)} {e : String × mockPost}
    (he : e ∈ ps) (cs : List Comment) :
    (e.1, ({ e.2 with comments := cs } : mockPost)) ∈ setComments ps e.1 cs := by
  simp only [setComments]
  refine List.mem_map.2 ⟨e, he, ?_⟩
  simp

theorem mem_setComments_other {ps : List (String × mockPost)} {e' : String × mockPost}
    (he' : e' ∈ ps) (key : String) (hk : e'.1 ≠ key) (cs : List Comment) :
    e' ∈ setComments ps key cs := by
  simp only [setComments]
  refine List.mem_map.2 ⟨e', he', ?_⟩
  simp [hk]

theorem mem_setComments {ps : List (String × mockPost)} {key : String} {cs : List Comment}
    {x : String × mockPost} (hx : x ∈ setComments ps key cs) :
    x ∈ ps ∨ ∃ e ∈ ps, e.1 = key ∧ x = (e.1, ({ e.2 with comments := cs } : mockPost)) := by
  simp only [setComments] at hx
  obtain ⟨e, he, hxe⟩ := List.mem_map.1 hx
  by_cases hk : e.1 = key
  · right
    refine ⟨e, he, hk, ?_⟩
    simp only [hk, if_true] at hxe
    rw [← hxe, hk]
  · left
    simp only [hk, if_false] at hxe
    exact hxe ▸ he

theorem skeleton_setComments (ps : List (String × mockPost)) (key : String)
    (cs : List Comment) :
    (setComments ps key cs).map (fun e => (e.1, e.2.post)) =
      ps.map (fun e => (e.1, e.2.post)) := by
  simp only [setComments, List.map_map]
  apply List.map_congr_left
  intro e _
  by_cases hk : e.1 = key <;> simp [hk]

theorem mapLookup_map_isSome {α : Type} (m : List (String × α)) (f : α → α) (k : String) :
    (mapLookup (m.map (fun e => (e.1, f e.2))) k).isSome = (mapLookup m k).isSome := by
  induction m with
  | nil => rfl
  | cons a t ih =>
    by_cases hk : a.1 = k
    · simp [mapLookup, hk]
    · simp [mapLookup, hk, ih]

/-! ## `Append` on an existing key, in terms of the raw structure -/

theorem path_elems_nil (p : Path) : p.elems = [] ↔ (p = none ∨ p = some []) := by
  cases p with
  | none => simp [Path.elems]
  | some l => simp [Path.elems]

/-- On an existing key whose path is empty or resolves, `Append` succeeds and replaces
the raw replies `T` of the key by `insertAt T path leaf` for a fresh leaf holding the
value; no other entry of `posts` changes. -/
theorem Append_insert {sub : String} {m : MockRedditAPI} (h : Inv sub m) (hc : InvC m)
    {e : String × mockPost} (he : e ∈ m.posts) (v : String) (p : Path)
    (hp : p.elems = [] ∨ pathResolves e.2.comments p.elems = true) :
    ∃ leaf : Comment,
      leaf.ID = toString (m.idCounter + 1) ∧ leaf.FullID = "t1_" ++ leaf.ID ∧
      leaf.Body = v ∧ leaf.Replies = [] ∧
      (KVClient.Append ⟨sub⟩ m e.2.post.Title v p).1 = .ok () ∧
      (KVClient.Append ⟨sub⟩ m e.2.post.Title v p).2.posts =
        setComments m.posts e.1 (insertAt e.2.comments p.elems leaf) ∧
      (KVClient.Append ⟨sub⟩ m e.2.post.Title v p).2.idCounter = m.idCounter + 1 ∧
      (∀ id, (mapLookup m.comments id).isSome →
        (mapLookup (KVClient.Append ⟨sub⟩ m e.2.post.Title v p).2.comments id).isSome) ∧
      (mapLookup (KVClient.Append ⟨sub⟩ m e.2.post.Title v p).2.comments
        leaf.ID).isSome := by
  by_cases hnil : p.elems = []
  · -- attach to the post itself
    have hroot := Append_root_spec h he v p ((path_elems_nil p).1 hnil)
    refine ⟨newComment (toString (m.idCounter + 1)) ("t3_" ++ e.1) v, rfl, rfl, rfl, rfl, ?_⟩
    rw [hroot, hnil]
    refine ⟨rfl, ?_, rfl, ?_, ?_⟩
    · exact mapStore_eq_setComments h.keysNodup he _
    · intro id hid
      exact mapLookup_mapStore_isSome _ _ _ _ hid
    · simp [mapLookup_mapStore_same, newComment]
  · -- attach to the comment the path resolves to
    have hres : pathResolves e.2.comments p.elems = true := by
      rcases hp with hp | hp
      · exact absurd hp hnil
      · exact hp
    obtain ⟨l, rfl⟩ : ∃ l, p = some l := by
      cases p with
      | none => exact absurd rfl hnil
      | some l => exact ⟨l, rfl⟩
    simp only [Path.elems] at hnil hres ⊢
    obtain ⟨t, ht⟩ := (navigateToComment_ok_iff l e.2.comments).2 hres
    have htref := navigate_mem_refs l e.2.comments t ht
    obtain ⟨hfull, ⟨n, -, hn⟩, hreg⟩ :=
      hc.wf _ ((refs_sublist_postRefs he).subset htref)
    simp only [] at hfull hn hreg
    have hlen : 0 < t.ID.length := by rw [hn]; exact toString_nat_length_pos n
    have hpath := Append_path_spec h he v l t hnil ht hfull hlen hreg
    refine ⟨newComment (toString (m.idCounter + 1)) ("t1_" ++ t.ID) v, rfl, rfl, rfl, rfl, ?_⟩
    rw [hpath]
    refine ⟨rfl, ?_, rfl, ?_, ?_⟩
    · simp only [MockRedditAPI.appendReply, setComments]
      apply List.map_congr_left
      intro e' he'
      by_cases hk : e'.1 = e.1
      · have hee : e' = e := entry_eq_of_key h.keysNodup he he' hk
        subst hee
        have hnd : ((refsEach e'.2.comments).map (fun r => r.1)).Nodup :=
          hc.distinct.sublist ((refs_sublist_postRefs he).map _)
        simp only [if_true]
        rw [withReplyEach_eq_insertAt _ l e'.2.comments t ht hnd]
      · have hx : t.ID ∈ (refsEach e.2.comments).map (fun r => r.1) :=
          List.mem_map_of_mem (fun r : String × String => r.1) htref
        have hnot := postRefs_disjoint hc.distinct he he' (fun hh => hk (hh ▸ rfl)) hx
        simp only [hk, if_false]
        rw [withReplyEach_of_not_mem _ _ _ hnot]
    · intro id hid
      simp only [MockRedditAPI.appendReply]
      rw [mapLookup_map_isSome]
      exact mapLookup_mapStore_isSome _ _ _ _ hid
    · simp only [MockRedditAPI.appendReply]
      rw [mapLookup_map_isSome]
      simp [mapLookup_mapStore_same, newComment]

/-- Either `Append` leaves the store as it was, or the key exists and its path is empty
or resolves. -/
theorem Append_cases {sub : String} {m : MockRedditAPI} (h : Inv sub m) (k v : String)
    (p : Path) :
    KVClient.Append ⟨sub⟩ m k v p = ((KVClient.Append ⟨sub⟩ m k v p).1, m) ∨
    ∃ e ∈ m.posts, e.2.post.Title = k ∧
      (p.elems = [] ∨ pathResolves e.2.comments p.elems = true) := by
  rcases @mem_or_absent sub m k with ⟨e, he, hek⟩ | habs
  · by_cases hnil : p.elems = []
    · exact Or.inr ⟨e, he, hek, Or.inl hnil⟩
    · by_cases hres : pathResolves e.2.comments p.elems = true
      · exact Or.inr ⟨e, he, hek, Or.inr hres⟩
      · left
        obtain ⟨l, rfl⟩ : ∃ l, p = some l := by
          cases p with
          | none => exact absurd rfl hnil
          | some l => exact ⟨l, rfl⟩
        simp only [Path.elems] at hnil hres
        have hf : pathResolves e.2.comments l = false := by simpa using hres
        obtain ⟨err, herr⟩ := navigateToComment_error_of_not_resolves e.2.comments l hf
        have hcond : ¬ ((some l : Path) = none ∨ Path.len (some l) = 0) := by
          simp [Path.len, hnil]
        subst hek
        simp only [KVClient.Append, findPostByTitle_of_mem h he, getPost_of_mem h he, hcond,
          if_false, Path.elems, herr]
  · left
    simp only [KVClient.Append, findPostByTitle_none sub m k habs]

/-! ## The comment invariant holds in every reachable store -/

theorem InvC_init : InvC NewMockRedditAPI :=
  ⟨fun e he => (by cases he), List.nodup_nil, fun r hr => (by cases hr)⟩

theorem InvC_of_sublist {m : MockRedditAPI} (hc : InvC m) (ps : List (String × mockPost))
    (hps : ps.Sublist m.posts) : InvC { m with posts := ps } :=
  ⟨fun e he => hc.nonempty e (hps.subset he),
   hc.distinct.sublist ((postRefs_sublist hps).map _),
   fun r hr => hc.wf r ((postRefs_sublist hps).subset hr)⟩

theorem InvC_of_perm {m : MockRedditAPI} (hc : InvC m) (ps : List (String × mockPost))
    (hps : ps.Perm m.posts) : InvC { m with posts := ps } :=
  ⟨fun e he => hc.nonempty e (hps.subset he),
   (((postRefs_perm hps).map _).nodup_iff).2 hc.distinct,
   fun r hr => hc.wf r ((postRefs_perm hps).subset hr)⟩

theorem fresh_ref {m : MockRedditAPI} (hc : InvC m) (rs : List (String × String))
    (hrs : ∀ r ∈ rs, r ∈ postRefs m.posts) (j : Nat) (hj : 0 < j) :
    toString (m.idCounter + j) ∉ rs.map (fun r => r.1) := by
  intro hmem
  obtain ⟨r, hr, hEq⟩ := List.mem_map.1 hmem
  obtain ⟨-, ⟨n, hn, hid⟩, -⟩ := hc.wf r (hrs r hr)
  rw [hid] at hEq
  have := toString_nat_injective hEq
  omega

theorem InvC_Set {sub : String} {m : MockRedditAPI} (h : Inv sub m) (hc : InvC m)
    (k v : String) : InvC (KVClient.Set ⟨sub⟩ m k v).2 := by
  obtain ⟨ps0, hsub, -, -, heq⟩ := Set_spec h k v
  rw [heq]
  have hrefs : postRefs (ps0 ++ [(toString (m.idCounter + 1),
      ({ post := newPost sub (toString (m.idCounter + 1)) k,
         comments := [newComment (toString (m.idCounter + 2))
           ("t3_" ++ toString (m.idCounter + 1)) v] } : mockPost))]) =
      postRefs ps0 ++ [(toString (m.idCounter + 2), "t1_" ++ toString (m.idCounter + 2))] := by
    rw [postRefs_append]
    simp [postRefs, refsEach, Comment.refs, newComment]
  refine ⟨?_, ?_, ?_⟩
  · intro e he
    rcases List.mem_append.1 he with he | he
    · exact hc.nonempty e (hsub.subset he)
    · rw [List.mem_singleton] at he
      subst he
      simp
  · simp only [hrefs, List.map_append, List.map_cons, List.map_nil]
    refine List.Nodup.append (hc.distinct.sublist ((postRefs_sublist hsub).map _))
      (List.nodup_singleton _) ?_
    intro x hx hx'
    rw [List.mem_singleton] at hx'
    subst hx'
    exact fresh_ref hc (postRefs ps0) (fun r hr => (postRefs_sublist hsub).subset hr) 2
      (by omega) hx
  · simp only [hrefs]
    intro r hr
    rcases List.mem_append.1 hr with hr | hr
    · obtain ⟨a, ⟨n, hn, hid⟩, b⟩ := hc.wf r ((postRefs_sublist hsub).subset hr)
      exact ⟨a, ⟨n, by omega, hid⟩, mapLookup_mapStore_isSome _ _ _ _ b⟩
    · rw [List.mem_singleton] at hr
      subst hr
      exact ⟨rfl, ⟨m.idCounter + 2, le_refl _, rfl⟩, by simp [mapLookup_mapStore_same]⟩

theorem InvC_Append {sub : String} {m : MockRedditAPI} (h : Inv sub m) (hc : InvC m)
    (k v : String) (p : Path) : InvC (KVClient.Append ⟨sub⟩ m k v p).2 := by
  rcases Append_cases h k v p with heq | ⟨e, he, hek, hp⟩
  · rw [heq]; exact hc
  · subst hek
    obtain ⟨leaf, hid, hfull, -, hrep, -, hposts, hcnt, hkeep, hnew⟩ :=
      Append_insert h hc he v p hp
    have hperm := postRefs_setComments_perm h.keysNodup he
      (insertAt e.2.comments p.elems leaf) (leaf.ID, leaf.FullID)
      (refsEach_insertAt_perm leaf hrep p.elems e.2.comments hp)
    refine ⟨?_, ?_, ?_⟩
    · rw [hposts]
      intro x hx
      rcases mem_setComments hx with hx | ⟨e', he', hk', rfl⟩
      · exact hc.nonempty x hx
      · have hee : e' = e := entry_eq_of_key h.keysNodup he he' hk'
        subst hee
        exact insertAt_ne_nil leaf p.elems _ (hc.nonempty e' he')
    · rw [hposts]
      refine (((hperm.map (fun r => r.1)).nodup_iff).2 ?_)
      simp only [List.map_cons, List.nodup_cons]
      refine ⟨?_, hc.distinct⟩
      rw [hid]
      exact fresh_ref hc (postRefs m.posts) (fun r hr => hr) 1 (by omega)
    · rw [hposts, hcnt]
      intro r hr
      rcases List.mem_cons.1 (hperm.subset hr) with hr | hr
      · subst hr
        exact ⟨hfull, ⟨m.idCounter + 1, le_refl _, hid⟩, hnew⟩
      · obtain ⟨a, ⟨n, hn, hn'⟩, b⟩ := hc.wf r hr
        exact ⟨a, ⟨n, by omega, hn'⟩, hkeep _ b⟩

theorem InvC_Delete {m : MockRedditAPI} (hc : InvC m) (c : KVClient) (k : String) :
    InvC (c.Delete m k).2 := by
  rcases Delete_state c m k with heq | ⟨id, heq⟩
  · rw [heq]; exact hc
  · rw [heq]; exact InvC_of_sublist hc _ (List.filter_sublist _)

theorem InvC_of_Reachable {sub : String} {m : MockRedditAPI} (h : Reachable sub m) :
    InvC m := by
  induction h with
  | init => exact InvC_init
  | set m k v hr ih => exact InvC_Set (Inv_of_Reachable hr) ih k v
  | append m k v p hr ih => exact InvC_Append (Inv_of_Reachable hr) ih k v p
  | delete m k _ ih => exact InvC_Delete ih ⟨sub⟩ k
  | reorder m ps _ hp ih => exact InvC_of_perm ih ps hp

/-! ## Reading a key after `Append` -/

theorem findPostByTitle_some {sub : String} {m : MockRedditAPI} {k : String} {post : Post}
    (h : KVClient.findPostByTitle ⟨sub⟩ m k = .ok (some post)) :
    ∃ e ∈ m.posts, e.2.post = post ∧ e.2.post.Title = k := by
  simp only [KVClient.findPostByTitle, MockRedditAPI.SearchPosts] at h
  have h' := Except.ok.inj h
  have hmem := List.mem_of_find?_eq_some h'
  have htitle := List.find?_some h'
  obtain ⟨e, he, hee⟩ := List.mem_map.1 hmem
  refine ⟨e, (List.mem_filter.1 he).1, hee, ?_⟩
  rw [hee]
  simpa using htitle

theorem commentsToValueTree_isSome (cs : List Comment) (h : cs ≠ []) :
    ∃ t, commentsToValueTree cs = some t := by
  cases cs with
  | nil => exact absurd rfl h
  | cons a t =>
    cases t with
    | nil => exact ⟨_, rfl⟩
    | cons b t' => exact ⟨_, rfl⟩

/-- After a successful `Append`, the key is served from the raw structure with the leaf
inserted at the path. -/
theorem read_after_Append {sub : String} {m : MockRedditAPI} (h : Inv sub m) (hc : InvC m)
    {e : String × mockPost} (he : e ∈ m.posts) (v : String) (p : Path)
    (hp : p.elems = [] ∨ pathResolves e.2.comments p.elems = true) :
    ∃ leaf : Comment, leaf.Body = v ∧ leaf.Replies = [] ∧
      (KVClient.Append ⟨sub⟩ m e.2.post.Title v p).1 = .ok () ∧
      (KVClient.Append ⟨sub⟩ m e.2.post.Title v p).2.GetPost e.2.post.ID =
        .ok { Post := e.2.post, Comments := insertAt e.2.comments p.elems leaf } ∧
      KVClient.findPostByTitle ⟨sub⟩ (KVClient.Append ⟨sub⟩ m e.2.post.Title v p).2
        e.2.post.Title = .ok (some e.2.post) ∧
      KVClient.Get ⟨sub⟩ (KVClient.Append ⟨sub⟩ m e.2.post.Title v p).2 e.2.post.Title =
        .ok (commentsToValueTree (insertAt e.2.comments p.elems leaf)) ∧
      (∀ e' ∈ m.posts, e'.1 ≠ e.1 →
        e' ∈ (KVClient.Append ⟨sub⟩ m e.2.post.Title v p).2.posts) := by
  obtain ⟨leaf, -, -, hbody, hrep, hok, hposts, -, -, -⟩ := Append_insert h hc he v p hp
  have hinv := Inv_Append h ⟨sub⟩ e.2.post.Title v p
  have hmem : (e.1, ({ e.2 with comments := insertAt e.2.comments p.elems leaf } : mockPost)) ∈
      (KVClient.Append ⟨sub⟩ m e.2.post.Title v p).2.posts := by
    rw [hposts]; exact mem_setComments_self he _
  have hne : insertAt e.2.comments p.elems leaf ≠ [] := by
    rcases hp with hp | hp
    · rw [hp]; simp [insertAt]
    · apply insertAt_ne_nil
      intro hnil
      rw [hnil] at hp
      cases hpe : p.elems with
      | nil => rw [hpe] at hp; simp [pathResolves] at hp
      | cons i rest => rw [hpe] at hp; simp [pathResolves] at hp; omega
  have hgp := getPost_of_mem hinv hmem
  have hfp := findPostByTitle_of_mem hinv hmem
  refine ⟨leaf, hbody, hrep, hok, hgp, hfp, ?_, ?_⟩
  · have hg := Get_of_mem hinv hmem
    have hlen : ¬ (insertAt e.2.comments p.elems leaf).length = 0 :=
      fun hh => hne (List.length_eq_zero.1 hh)
    simpa [hlen] using hg
  · intro e' he' hk
    rw [hposts]
    exact mem_setComments_other he' e.1 hk _

/-- C14: on a reachable store, for a key whose lookup finds `post` with the raw replies
`pac.Comments`, an `Append` whose path is nil or empty, or resolves in the raw replies,
succeeds, and afterwards the raw replies of the key are the former ones with one new leaf
(text `v`, no replies) inserted: as the last top-level reply for a nil or empty path, as
the last reply of the addressed node otherwise; the key still maps to `post`, and every
other entry of `posts` is kept. -/
theorem append_attaches_leaf (sub : String) (m : MockRedditAPI) (k v : String) (p : Path)
    (post : Post) (pac : PostAndComments) (h : Reachable sub m)
    (hfind : KVClient.findPostByTitle ⟨sub⟩ m k = .ok (some post))
    (hget : m.GetPost post.ID = .ok pac)
    (hp : p.elems = [] ∨ pathResolves pac.Comments p.elems = true) :
    ∃ leaf : Comment, leaf.Body = v ∧ leaf.Replies = [] ∧
      (KVClient.Append ⟨sub⟩ m k v p).1 = .ok () ∧
      (KVClient.Append ⟨sub⟩ m k v p).2.GetPost post.ID =
        .ok { Post := post, Comments := insertAt pac.Comments p.elems leaf } ∧
      (p.elems = [] → insertAt pac.Comments p.elems leaf = pac.Comments ++ [leaf]) ∧
      KVClient.findPostByTitle ⟨sub⟩ (KVClient.Append ⟨sub⟩ m k v p).2 k = .ok (some post) ∧
      (∀ e' ∈ m.posts, e'.1 ≠ post.ID → e' ∈ (KVClient.Append ⟨sub⟩ m k v p).2.posts) := by
  have hinv := Inv_of_Reachable h
  have hcinv := InvC_of_Reachable h
  obtain ⟨e, he, hpost, hk⟩ := findPostByTitle_some hfind
  have hg := getPost_of_mem hinv he
  rw [hpost, hget] at hg
  have hpac : pac.Comments = e.2.comments := by
    have := Except.ok.inj hg
    rw [this]
  rw [hpac] at hp ⊢
  obtain ⟨leaf, hbody, hrep, hok, hgp, hfp, -, hothers⟩ :=
    read_after_Append hinv hcinv he v p hp
  rw [hk, hpost] at hgp hfp
  rw [hk] at hok hothers
  refine ⟨leaf, hbody, hrep, hok, hgp, ?_, hfp, ?_⟩
  · intro hnil
    rw [hnil]; rfl
  · intro e' he' hne
    apply hothers e' he'
    rw [← (hinv.ids e he).1, hpost]
    exact hne

/-- Witness for C14: after `Set(k, "r")` and `Append(k, "s", nil)`, `Append(k, "x", [1])`
attaches `x` beneath `s`, and `Get(k)` returns `r` over the single child `s` over the
single child `x`. -/
theorem append_attaches_leaf_witness :
    (Reachable "kv"
        (KVClient.Append ⟨"kv"⟩ (KVClient.Set ⟨"kv"⟩ NewMockRedditAPI "k" "r").2
          "k" "s" none).2 ∧
      KVClient.findPostByTitle ⟨"kv"⟩
        (KVClient.Append ⟨"kv"⟩ (KVClient.Set ⟨"kv"⟩ NewMockRedditAPI "k" "r").2
          "k" "s" none).2 "k" = .ok (some (newPost "kv" "1" "k")) ∧
      (KVClient.Append ⟨"kv"⟩ (KVClient.Set ⟨"kv"⟩ NewMockRedditAPI "k" "r").2
          "k" "s" none).2.GetPost (newPost "kv" "1" "k").ID =
        .ok { Post := newPost "kv" "1" "k",
              Comments := [newComment "2" "t3_1" "r", newComment "3" "t3_1" "s"] } ∧
      (Path.elems (some [1]) = [] ∨
        pathResolves [newComment "2" "t3_1" "r", newComment "3" "t3_1" "s"]
          (Path.elems (some [1])) = true)) ∧
    (∃ leaf : Comment, leaf.Body = "x" ∧ leaf.Replies = [] ∧
      (KVClient.Append ⟨"kv"⟩
        (KVClient.Append ⟨"kv"⟩ (KVClient.Set ⟨"kv"⟩ NewMockRedditAPI "k" "r").2
          "k" "s" none).2 "k" "x" (some [1])).1 = .ok () ∧
      (KVClient.Append ⟨"kv"⟩
        (KVClient.Append ⟨"kv"⟩ (KVClient.Set ⟨"kv"⟩ NewMockRedditAPI "k" "r").2
          "k" "s" none).2 "k" "x" (some [1])).2.GetPost (newPost "kv" "1" "k").ID =
        .ok { Post := newPost "kv" "1" "k",
              Comments := insertAt [newComment "2" "t3_1" "r", newComment "3" "t3_1" "s"]
                (Path.elems (some [1])) leaf } ∧
      (Path.elems (some [1]) = [] →
        insertAt [newComment "2" "t3_1" "r", newComment "3" "t3_1" "s"]
          (Path.elems (some [1])) leaf =
          [newComment "2" "t3_1" "r", newComment "3" "t3_1" "s"] ++ [leaf]) ∧
      KVClient.findPostByTitle ⟨"kv"⟩
        (KVClient.Append ⟨"kv"⟩
          (KVClient.Append ⟨"kv"⟩ (KVClient.Set ⟨"kv"⟩ NewMockRedditAPI "k" "r").2
            "k" "s" none).2 "k" "x" (some [1])).2 "k" = .ok (some (newPost "kv" "1" "k")) ∧
      (∀ e' ∈ (KVClient.Append ⟨"kv"⟩ (KVClient.Set ⟨"kv"⟩ NewMockRedditAPI "k" "r").2
          "k" "s" none).2.posts, e'.1 ≠ (newPost "kv" "1" "k").ID →
        e' ∈ (KVClient.Append ⟨"kv"⟩
          (KVClient.Append ⟨"kv"⟩ (KVClient.Set ⟨"kv"⟩ NewMockRedditAPI "k" "r").2
            "k" "s" none).2 "k" "x" (some [1])).2.posts)) ∧
    KVClient.Get ⟨"kv"⟩
      (KVClient.Append ⟨"kv"⟩
        (KVClient.Append ⟨"kv"⟩ (KVClient.Set ⟨"kv"⟩ NewMockRedditAPI "k" "r").2
          "k" "s" none).2 "k" "x" (some [1])).2 "k" =
      .ok (some { Value := "r",
                  Children := [{ Value := "s",
                                 Children := [{ Value := "x", Children := [] }] }] }) :=
  ⟨⟨Reachable.append _ "k" "s" none (Reachable.set _ "k" "r" Reachable.init), rfl, rfl,
     Or.inr rfl⟩,
   append_attaches_leaf "kv" _ "k" "x" (some [1]) (newPost "kv" "1" "k")
     { Post := newPost "kv" "1" "k",
       Comments := [newComment "2" "t3_1" "r", newComment "3" "t3_1" "s"] }
     (Reachable.append _ "k" "s" none (Reachable.set _ "k" "r" Reachable.init)) rfl rfl
     (Or.inr rfl),
   rfl⟩

/-! ## Key uniqueness, the merge seen from outside, and key isolation -/

/-- C17: in every store reachable through client operations on one subreddit, the posts
of the subreddit have pairwise distinct titles (and every post belongs to it), every post
has at least one top-level reply, and for every key `Exists` returns without error and is
true exactly when `Get` succeeds. -/
theorem key_uniqueness (sub : String) (m : MockRedditAPI) (h : Reachable sub m) :
    ((m.posts.filter (fun e => e.2.post.SubredditName = sub)).map
      (fun e => e.2.post.Title)).Nodup ∧
    (∀ e ∈ m.posts, e.2.post.SubredditName = sub) ∧
    (∀ e ∈ m.posts, ∀ e' ∈ m.posts, e.2.post.Title = e'.2.post.Title → e = e') ∧
    (∀ e ∈ m.posts, e.2.comments ≠ []) ∧
    ∀ k : String,
      (∃ b, KVClient.Exists ⟨sub⟩ m k = .ok b) ∧
      (KVClient.Exists ⟨sub⟩ m k = .ok true ↔ ∃ t, KVClient.Get ⟨sub⟩ m k = .ok (some t)) := by
  have hinv := Inv_of_Reachable h
  have hcinv := InvC_of_Reachable h
  refine ⟨?_, fun e he => (hinv.ids e he).2.2.1,
    fun e he e' he' ht => title_injective hinv he he' ht, hcinv.nonempty, fun k => ?_⟩
  · exact hinv.titlesNodup.sublist ((List.filter_sublist _).map _)
  · rcases @mem_or_absent sub m k with ⟨e, he, hek⟩ | habs
    · subst hek
      have hex := Exists_of_mem hinv he
      have hget := Get_of_mem hinv he
      have hlen : ¬ e.2.comments.length = 0 :=
        fun hh => hcinv.nonempty e he (List.length_eq_zero.1 hh)
      simp only [hlen, if_false] at hget
      obtain ⟨t, ht⟩ := commentsToValueTree_isSome e.2.comments (hcinv.nonempty e he)
      refine ⟨⟨true, hex⟩, fun _ => ⟨t, by rw [hget, ht]⟩, fun _ => hex⟩
    · have hex := Exists_of_absent sub m k habs
      have hget := Get_of_absent sub m k habs
      refine ⟨⟨false, hex⟩, ?_, ?_⟩
      · intro hc
        rw [hex] at hc
        exact Bool.noConfusion (Except.ok.inj hc)
      · rintro ⟨t, ht⟩
        rw [hget] at ht
        cases ht

/-- Witness for C17: the store after `Set("a", "b")` and `Append("a", "c", nil)`. -/
theorem key_uniqueness_witness :
    Reachable "kv"
      (KVClient.Append ⟨"kv"⟩ (KVClient.Set ⟨"kv"⟩ NewMockRedditAPI "a" "b").2
        "a" "c" none).2 ∧
    (((KVClient.Append ⟨"kv"⟩ (KVClient.Set ⟨"kv"⟩ NewMockRedditAPI "a" "b").2
        "a" "c" none).2.posts.filter (fun e => e.2.post.SubredditName = "kv")).map
      (fun e => e.2.post.Title)).Nodup ∧
    (∀ e ∈ (KVClient.Append ⟨"kv"⟩ (KVClient.Set ⟨"kv"⟩ NewMockRedditAPI "a" "b").2
        "a" "c" none).2.posts, e.2.post.SubredditName = "kv") ∧
    (∀ e ∈ (KVClient.Append ⟨"kv"⟩ (KVClient.Set ⟨"kv"⟩ NewMockRedditAPI "a" "b").2
        "a" "c" none).2.posts,
      ∀ e' ∈ (KVClient.Append ⟨"kv"⟩ (KVClient.Set ⟨"kv"⟩ NewMockRedditAPI "a" "b").2
        "a" "c" none).2.posts, e.2.post.Title = e'.2.post.Title → e = e') ∧
    (∀ e ∈ (KVClient.Append ⟨"kv"⟩ (KVClient.Set ⟨"kv"⟩ NewMockRedditAPI "a" "b").2
        "a" "c" none).2.posts, e.2.comments ≠ []) ∧
    ∀ k : String,
      (∃ b, KVClient.Exists ⟨"kv"⟩
        (KVClient.Append ⟨"kv"⟩ (KVClient.Set ⟨"kv"⟩ NewMockRedditAPI "a" "b").2
          "a" "c" none).2 k = .ok b) ∧
      (KVClient.Exists ⟨"kv"⟩
        (KVClient.Append ⟨"kv"⟩ (KVClient.Set ⟨"kv"⟩ NewMockRedditAPI "a" "b").2
          "a" "c" none).2 k = .ok true ↔
        ∃ t, KVClient.Get ⟨"kv"⟩
          (KVClient.Append ⟨"kv"⟩ (KVClient.Set ⟨"kv"⟩ NewMockRedditAPI "a" "b").2
            "a" "c" none).2 k = .ok (some t)) :=
  ⟨Reachable.append _ "a" "c" none (Reachable.set _ "a" "b" Reachable.init),
   key_uniqueness "kv" _
    (Reachable.append _ "a" "c" none (Reachable.set _ "a" "b" Reachable.init))⟩

/-- Reading a key gives the same result on two stores that satisfy the invariant and hold
the same entries under that key's title. -/
theorem read_frame {sub : String} {m m' : MockRedditAPI} (h : Inv sub m) (h' : Inv sub m')
    (k2 : String)
    (hfw : ∀ e ∈ m.posts, e.2.post.Title = k2 → e ∈ m'.posts)
    (hbw : ∀ e ∈ m'.posts, e.2.post.Title = k2 → e ∈ m.posts) :
    KVClient.Get ⟨sub⟩ m' k2 = KVClient.Get ⟨sub⟩ m k2 ∧
    KVClient.Exists ⟨sub⟩ m' k2 = KVClient.Exists ⟨sub⟩ m k2 := by
  rcases @mem_or_absent sub m k2 with ⟨e, he, hek⟩ | habs
  · subst hek
    have he' := hfw e he rfl
    rw [Get_of_mem h he, Get_of_mem h' he', Exists_of_mem h he, Exists_of_mem h' he']
    exact ⟨rfl, rfl⟩
  · have habs' : ∀ e ∈ m'.posts,
        ¬ (e.2.post.SubredditName = sub ∧ e.2.post.Title = k2) :=
      fun e he hc => habs e (hbw e he hc.2) hc
    rw [Get_of_absent sub m k2 habs, Get_of_absent sub m' k2 habs',
      Exists_of_absent sub m k2 habs, Exists_of_absent sub m' k2 habs']
    exact ⟨rfl, rfl⟩

/-- C19: on a reachable store, for distinct keys `k` and `k2`, none of `Set(k, v)`,
`Append(k, v, p)` and `Delete(k)`, whether it succeeds or fails, changes what `Get(k2)`
and `Exists(k2)` return. -/
theorem key_isolation (sub : String) (m : MockRedditAPI) (k k2 v : String) (p : Path)
    (h : Reachable sub m) (hne : k ≠ k2) :
    (KVClient.Get ⟨sub⟩ (KVClient.Set ⟨sub⟩ m k v).2 k2 = KVClient.Get ⟨sub⟩ m k2 ∧
      KVClient.Exists ⟨sub⟩ (KVClient.Set ⟨sub⟩ m k v).2 k2 = KVClient.Exists ⟨sub⟩ m k2) ∧
    (KVClient.Get ⟨sub⟩ (KVClient.Append ⟨sub⟩ m k v p).2 k2 = KVClient.Get ⟨sub⟩ m k2 ∧
      KVClient.Exists ⟨sub⟩ (KVClient.Append ⟨sub⟩ m k v p).2 k2 =
        KVClient.Exists ⟨sub⟩ m k2) ∧
    (KVClient.Get ⟨sub⟩ (KVClient.Delete ⟨sub⟩ m k).2 k2 = KVClient.Get ⟨sub⟩ m k2 ∧
      KVClient.Exists ⟨sub⟩ (KVClient.Delete ⟨sub⟩ m k).2 k2 =
        KVClient.Exists ⟨sub⟩ m k2) := by
  have hinv := Inv_of_Reachable h
  have hcinv := InvC_of_Reachable h
  refine ⟨?_, ?_, ?_⟩
  · -- Set
    apply read_frame hinv (Inv_Set hinv k v) k2
    · obtain ⟨ps0, -, -, hall, heq⟩ := Set_spec hinv k v
      rw [heq]
      intro e he ht
      exact List.mem_append_left _ (hall e he (fun hh => hne (hh.symm.trans ht)))
    · obtain ⟨ps0, hsub, -, -, heq⟩ := Set_spec hinv k v
      rw [heq]
      intro e he ht
      rcases List.mem_append.1 he with he | he
      · exact hsub.subset he
      · rw [List.mem_singleton] at he
        subst he
        exact absurd ht hne
  · -- Append
    rcases Append_cases hinv k v p with heq | ⟨e, he, hek, hp⟩
    · rw [heq]; exact ⟨rfl, rfl⟩
    · subst hek
      obtain ⟨leaf, -, -, -, -, -, hposts, -, -, -⟩ := Append_insert hinv hcinv he v p hp
      apply read_frame hinv (Inv_Append hinv ⟨sub⟩ e.2.post.Title v p) k2
      · intro e2 he2 ht
        rw [hposts]
        apply mem_setComments_other he2
        intro hk
        have := entry_eq_of_key hinv.keysNodup he he2 hk
        exact hne (this ▸ ht)
      · intro x hx ht
        rw [hposts] at hx
        rcases mem_setComments hx with hx | ⟨e', he', hk', rfl⟩
        · exact hx
        · have hee : e' = e := entry_eq_of_key hinv.keysNodup he he' hk'
          subst hee
          exact absurd ht hne
  · -- Delete
    rcases @mem_or_absent sub m k with ⟨e, he, hek⟩ | habs
    · subst hek
      rw [Delete_spec hinv he]
      apply read_frame hinv (Inv_of_sublist hinv _ (List.filter_sublist _)) k2
      · intro e2 he2 ht
        refine List.mem_filter.2 ⟨he2, ?_⟩
        have : e2.1 ≠ e.1 := by
          intro hk
          have := entry_eq_of_key hinv.keysNodup he he2 hk
          exact hne (this ▸ ht)
        simpa using this
      · intro x hx _
        exact (List.mem_filter.1 hx).1
    · have : KVClient.Delete ⟨sub⟩ m k = (.error (.KeyNotFoundError k), m) := by
        simp only [KVClient.Delete, findPostByTitle_none sub m k habs]
      rw [this]
      exact ⟨rfl, rfl⟩

/-- Witness for C19: keys `a` and `b` on the store that holds both. -/
theorem key_isolation_witness :
    (Reachable "kv"
        (KVClient.Set ⟨"kv"⟩ (KVClient.Set ⟨"kv"⟩ NewMockRedditAPI "a" "1").2 "b" "2").2 ∧
      ("a" : String) ≠ "b") ∧
    ((KVClient.Get ⟨"kv"⟩ (KVClient.Set ⟨"kv"⟩
        (KVClient.Set ⟨"kv"⟩ (KVClient.Set ⟨"kv"⟩ NewMockRedditAPI "a" "1").2 "b" "2").2
          "a" "x").2 "b" =
        KVClient.Get ⟨"kv"⟩
          (KVClient.Set ⟨"kv"⟩ (KVClient.Set ⟨"kv"⟩ NewMockRedditAPI "a" "1").2 "b" "2").2
          "b" ∧
      KVClient.Exists ⟨"kv"⟩ (KVClient.Set ⟨"kv"⟩
        (KVClient.Set ⟨"kv"⟩ (KVClient.Set ⟨"kv"⟩ NewMockRedditAPI "a" "1").2 "b" "2").2
          "a" "x").2 "b" =
        KVClient.Exists ⟨"kv"⟩
          (KVClient.Set ⟨"kv"⟩ (KVClient.Set ⟨"kv"⟩ NewMockRedditAPI "a" "1").2 "b" "2").2
          "b") ∧
    (KVClient.Get ⟨"kv"⟩ (KVClient.Append ⟨"kv"⟩
        (KVClient.Set ⟨"kv"⟩ (KVClient.Set ⟨"kv"⟩ NewMockRedditAPI "a" "1").2 "b" "2").2
          "a" "x" (some [0])).2 "b" =
        KVClient.Get ⟨"kv"⟩
          (KVClient.Set ⟨"kv"⟩ (KVClient.Set ⟨"kv"⟩ NewMockRedditAPI "a" "1").2 "b" "2").2
          "b" ∧
      KVClient.Exists ⟨"kv"⟩ (KVClient.Append ⟨"kv"⟩
        (KVClient.Set ⟨"kv"⟩ (KVClient.Set ⟨"kv"⟩ NewMockRedditAPI "a" "1").2 "b" "2").2
          "a" "x" (some [0])).2 "b" =
        KVClient.Exists ⟨"kv"⟩
          (KVClient.Set ⟨"kv"⟩ (KVClient.Set ⟨"kv"⟩ NewMockRedditAPI "a" "1").2 "b" "2").2
          "b") ∧
    (KVClient.Get ⟨"kv"⟩ (KVClient.Delete ⟨"kv"⟩
        (KVClient.Set ⟨"kv"⟩ (KVClient.Set ⟨"kv"⟩ NewMockRedditAPI "a" "1").2 "b" "2").2
          "a").2 "b" =
        KVClient.Get ⟨"kv"⟩
          (KVClient.Set ⟨"kv"⟩ (KVClient.Set ⟨"kv"⟩ NewMockRedditAPI "a" "1").2 "b" "2").2
          "b" ∧
      KVClient.Exists ⟨"kv"⟩ (KVClient.Delete ⟨"kv"⟩
        (KVClient.Set ⟨"kv"⟩ (KVClient.Set ⟨"kv"⟩ NewMockRedditAPI "a" "1").2 "b" "2").2
          "a").2 "b" =
        KVClient.Exists ⟨"kv"⟩
          (KVClient.Set ⟨"kv"⟩ (KVClient.Set ⟨"kv"⟩ NewMockRedditAPI "a" "1").2 "b" "2").2
          "b")) :=
  ⟨⟨Reachable.set _ "b" "2" (Reachable.set _ "a" "1" Reachable.init), by decide⟩,
   key_isolation "kv" _ "a" "b" "x" (some [0])
     (Reachable.set _ "b" "2" (Reachable.set _ "a" "1" Reachable.init)) (by decide)⟩

/-- C18: on a reachable store, after `Set(k, v)` the tree that `Get(k)` returns after
`Append(k, x, p)` with a nil or empty path equals the tree it returns after
`Append(k, x, [0])`, namely `v` over the single childless child `x`, although the raw
replies differ: two top-level replies in the first store, one top-level reply with one
nested reply in the second. -/
theorem merge_not_injective (sub : String) (m : MockRedditAPI) (k v x : String) (p : Path)
    (h : Reachable sub m) (hp : p.elems = []) :
    KVClient.Get ⟨sub⟩ (KVClient.Append ⟨sub⟩ (KVClient.Set ⟨sub⟩ m k v).2 k x p).2 k =
      KVClient.Get ⟨sub⟩
        (KVClient.Append ⟨sub⟩ (KVClient.Set ⟨sub⟩ m k v).2 k x (some [0])).2 k ∧
    KVClient.Get ⟨sub⟩ (KVClient.Append ⟨sub⟩ (KVClient.Set ⟨sub⟩ m k v).2 k x p).2 k =
      .ok (some { Value := v, Children := [{ Value := x, Children := [] }] }) ∧
    ∃ (r0 : Comment) (la lb : Comment),
      (KVClient.Append ⟨sub⟩ (KVClient.Set ⟨sub⟩ m k v).2 k x p).2.GetPost
          (toString (m.idCounter + 1)) =
        .ok { Post := newPost sub (toString (m.idCounter + 1)) k, Comments := [r0, la] } ∧
      (KVClient.Append ⟨sub⟩ (KVClient.Set ⟨sub⟩ m k v).2 k x (some [0])).2.GetPost
          (toString (m.idCounter + 1)) =
        .ok { Post := newPost sub (toString (m.idCounter + 1)) k,
              Comments := [{ r0 with Replies := [lb] }] } ∧
      r0.Body = v ∧ r0.Replies = [] ∧ la.Body = x ∧ la.Replies = [] ∧
      lb.Body = x ∧ lb.Replies = [] := by
  obtain ⟨-, hinv, hmem, -, -⟩ := Set_entry (Inv_of_Reachable h) k v
  have hcinv := InvC_of_Reachable (Reachable.set m k v h)
  obtain ⟨la, hla, hlar, -, hgpa, -, hga, -⟩ :=
    read_after_Append hinv hcinv hmem x p (Or.inl hp)
  obtain ⟨lb, hlb, hlbr, -, hgpb, -, hgb, -⟩ :=
    read_after_Append hinv hcinv hmem x (some [0]) (Or.inr (by rfl))
  simp only [newPost, hp] at hgpa hga hgpb hgb
  have hca : commentToValueNode la = { Value := x, Children := [] } := by
    rw [commentToValueNode_eq, hla, hlar]; rfl
  have hcb : commentToValueNode lb = { Value := x, Children := [] } := by
    rw [commentToValueNode_eq, hlb, hlbr]; rfl
  have hta : commentsToValueTree
      (insertAt [newComment (toString (m.idCounter + 2))
        ("t3_" ++ toString (m.idCounter + 1)) v] [] la) =
      some { Value := v, Children := [{ Value := x, Children := [] }] } := by
    simp [insertAt, commentsToValueTree, convertEach, newComment, hca]
  have htb : commentsToValueTree
      (insertAt [newComment (toString (m.idCounter + 2))
        ("t3_" ++ toString (m.idCounter + 1)) v] (Path.elems (some [0])) lb) =
      some { Value := v, Children := [{ Value := x, Children := [] }] } := by
    simp [insertAt, Path.elems, commentsToValueTree, commentToValueNode, convertEach,
      newComment, hcb]
  rw [hta] at hga
  rw [htb] at hgb
  refine ⟨hga.trans hgb.symm, hga,
    newComment (toString (m.idCounter + 2)) ("t3_" ++ toString (m.idCounter + 1)) v,
    la, lb, ?_, ?_, rfl, rfl, hla, hlar, hlb, hlbr⟩
  · rw [hgpa]; rfl
  · rw [hgpb]; simp [insertAt, Path.elems, newPost, newComment]

/-- Witness for C18 at the empty store with the nil path. -/
theorem merge_not_injective_witness :
    (Reachable "kv" NewMockRedditAPI ∧ Path.elems none = []) ∧
    (KVClient.Get ⟨"kv"⟩
        (KVClient.Append ⟨"kv"⟩ (KVClient.Set ⟨"kv"⟩ NewMockRedditAPI "mykey" "root").2
          "mykey" "x" none).2 "mykey" =
      KVClient.Get ⟨"kv"⟩
        (KVClient.Append ⟨"kv"⟩ (KVClient.Set ⟨"kv"⟩ NewMockRedditAPI "mykey" "root").2
          "mykey" "x" (some [0])).2 "mykey" ∧
    KVClient.Get ⟨"kv"⟩
        (KVClient.Append ⟨"kv"⟩ (KVClient.Set ⟨"kv"⟩ NewMockRedditAPI "mykey" "root").2
          "mykey" "x" none).2 "mykey" =
      .ok (some { Value := "root", Children := [{ Value := "x", Children := [] }] }) ∧
    ∃ (r0 : Comment) (la lb : Comment),
      (KVClient.Append ⟨"kv"⟩ (KVClient.Set ⟨"kv"⟩ NewMockRedditAPI "mykey" "root").2
          "mykey" "x" none).2.GetPost (toString (NewMockRedditAPI.idCounter + 1)) =
        .ok { Post := newPost "kv" (toString (NewMockRedditAPI.idCounter + 1)) "mykey",
              Comments := [r0, la] } ∧
      (KVClient.Append ⟨"kv"⟩ (KVClient.Set ⟨"kv"⟩ NewMockRedditAPI "mykey" "root").2
          "mykey" "x" (some [0])).2.GetPost (toString (NewMockRedditAPI.idCounter + 1)) =
        .ok { Post := newPost "kv" (toString (NewMockRedditAPI.idCounter + 1)) "mykey",
              Comments := [{ r0 with Replies := [lb] }] } ∧
      r0.Body = "root" ∧ r0.Replies = [] ∧ la.Body = "x" ∧ la.Replies = [] ∧
      lb.Body = "x" ∧ lb.Replies = []) :=
  ⟨⟨Reachable.init, rfl⟩,
   merge_not_injective "kv" NewMockRedditAPI "mykey" "root" "x" none Reachable.init rfl⟩

end RedditKV
